import Mathlib

/-!
# Scanner gateway (`scanner.go`): a shallow embedding and its verified properties

The Go program is one file: two configuration helpers (`getEnv`, `getCustomTags`) and
`main`, which validates the environment, creates the scanning client, registers the
`/scan` and `/health` handlers and starts the listener.

Modelling conventions.

* A Go `string` is its sequence of bytes (`GoString`); it need not be valid UTF-8.
  A header value, an environment value and a verdict are arbitrary byte strings.
* Library functions the program calls (`strings.Split`, `filepath.Base`, `filepath.Ext`,
  `time.Time.Format`, `http.Error`, `json.Encoder.Encode`) are transcribed from the Go
  standard library for a Unix build (path separator `/`, no volume names); the service
  logs to `/app/scanner.log`, a Unix path.
* A JSON string is represented by the UTF-8 bytes of its text.  `encoding/json` writes
  U+FFFD for every byte of a Go string that is not part of a valid UTF-8 sequence, so
  the text of a member can differ from the Go string it was made from.
* Effects are explicit: a handler returns its response together with the ordered list of
  events it performed; `main` returns the ordered list of its start-up events.
* Everything the program reads from outside (environment, clock readings, the outcome of
  reading the request body, the behaviour of the scanning client, the outcome of writing
  the encoded response) is a parameter.
-/

namespace Scanner

/-! ## Strings, slices, bytes -/

/-- A Go string: a sequence of bytes. -/
abbrev GoString := List UInt8

/-- The Go string literal with the given text: its UTF-8 bytes. -/
def str (s : String) : GoString := s.toUTF8.data.toList

/-- A Go byte slice holding request data. -/
abbrev Bytes := List UInt8

/-- A Go value of type `[]string`: `none` is the nil slice, `some l` a non-nil slice. -/
abbrev Slice := Option (List GoString)

/-- The elements of a slice; the nil slice has none. -/
def Slice.elems (s : Slice) : List GoString := s.getD []

/-- Go `append(a, b...)` for a non-nil, non-empty left operand: the result is non-nil. -/
def Slice.appendTo (a : List GoString) (b : Slice) : Slice := some (a ++ b.elems)

/-! ## `strings.Split` with a one-byte separator -/

/-- Go `strings.IndexByte`: position of the first occurrence of `c` in `s`
(`none` is Go's `-1`). -/
def strings.IndexByte : GoString → UInt8 → Option Nat
  | [], _ => none
  | x :: xs, c => if x = c then some 0 else (strings.IndexByte xs c).map (· + 1)

/-- Go `strings.Count` for a one-byte separator. -/
def strings.Count (s : GoString) (c : UInt8) : Nat := s.count c

/-- The loop of Go `genSplit` (`sepSave = 0`, one-byte separator).  The first argument
is the number of iterations left, `n - i` in the source after `n--`. -/
def strings.genSplitLoop (sep : UInt8) : Nat → GoString → List GoString
  | 0, s => [s]
  | k + 1, s =>
    match strings.IndexByte s sep with
    | none => [s]
    | some m => s.take m :: strings.genSplitLoop sep k (s.drop (m + 1))

/-- Go `strings.Split(s, sep)` for a one-byte `sep`, i.e. `genSplit(s, sep, 0, -1)`:
`n = Count(s, sep) + 1`, clamped to `len(s) + 1`, then the loop runs `n - 1` times at
most. -/
def strings.Split (s : GoString) (sep : UInt8) : List GoString :=
  let n := strings.Count s sep + 1
  let n := if n > s.length + 1 then s.length + 1 else n
  strings.genSplitLoop sep (n - 1) s

/-- Go `strings.Join(elems, sep)` for a one-byte `sep`. -/
def strings.Join : List GoString → UInt8 → GoString
  | [], _ => []
  | [a], _ => a
  | a :: b :: rest, sep => a ++ sep :: strings.Join (b :: rest) sep

/-! ## `path/filepath` on Unix -/

/-- Go `os.IsPathSeparator` on Unix. -/
def os.IsPathSeparator (c : UInt8) : Bool := c == '/'.toUInt8

/-- The loop of Go `filepath.Ext`.  The argument is `i + 1` for the loop variable `i`;
`0` is the exit `i < 0`. -/
def filepath.extLoop (path : GoString) : Nat → GoString
  | 0 => []
  | i + 1 =>
    match path[i]? with
    | none => []
    | some c =>
      if os.IsPathSeparator c then []
      else if c = '.'.toUInt8 then path.drop i
      else filepath.extLoop path i

/-- Go `filepath.Ext`: the suffix beginning at the final dot in the final element of
`path`; empty if there is no dot. -/
def filepath.Ext (path : GoString) : GoString := filepath.extLoop path path.length

/-- First loop of Go `filepath.Base`: strip trailing separators.  The argument is the
current `len(path)`; the result is the remaining prefix. -/
def filepath.stripTrailing (path : GoString) : Nat → GoString
  | 0 => []
  | n + 1 =>
    match path[n]? with
    | none => path.take (n + 1)
    | some c =>
      if os.IsPathSeparator c then filepath.stripTrailing path n
      else path.take (n + 1)

/-- Second loop of Go `filepath.Base`: find the last separator.  The argument is `i + 1`
for the loop variable `i`; so is the result (`0` when the loop ends with `i = -1`). -/
def filepath.lastSeparator (path : GoString) : Nat → Nat
  | 0 => 0
  | i + 1 =>
    match path[i]? with
    | none => 0
    | some c =>
      if os.IsPathSeparator c then i + 1
      else filepath.lastSeparator path i

/-- Go `filepath.Base`: the last element of `path`.  Trailing separators are removed
first; an empty path gives `"."`, a path of separators only gives `"/"`. -/
def filepath.Base (path : GoString) : GoString :=
  if path = [] then ['.'.toUInt8]
  else
    let path := filepath.stripTrailing path path.length
    let path := path.drop (filepath.lastSeparator path path.length)
    if path = [] then ['/'.toUInt8] else path

/-! ## `time.Time.Format` for the three layouts the program uses -/

/-- The civil reading of a Go `time.Time` in its location: what `Date()`, `Clock()` and
`Zone()` return.  `offset` is in seconds east of UTC. -/
structure Time where
  year : Int
  month : Nat
  day : Nat
  hour : Nat
  minute : Nat
  second : Nat
  offset : Int
deriving DecidableEq

/-- The ranges of the civil fields of every `time.Time`. -/
def Time.wellFormed (t : Time) : Prop :=
  1 ≤ t.month ∧ t.month ≤ 12 ∧ 1 ≤ t.day ∧ t.day ≤ 31 ∧
  t.hour < 24 ∧ t.minute < 60 ∧ t.second < 60

instance (t : Time) : Decidable t.wellFormed := by
  unfold Time.wellFormed; infer_instance

/-- Whether a byte is a decimal digit, `0` to `9`. -/
def isDigit (c : UInt8) : Bool := '0'.toUInt8 ≤ c && c ≤ '9'.toUInt8

/-- Go `utod` inside `appendInt`: the digit byte of `u`, `'0' + byte(u)`. -/
def time.utod (u : Nat) : UInt8 := '0'.toUInt8 + u.toUInt8

/-- The decimal digits of `u`, most significant first (empty for `0`); the first
argument bounds the number of digits. -/
def time.digits : Nat → Nat → GoString
  | 0, _ => []
  | fuel + 1, u => if u = 0 then [] else time.digits fuel (u / 10) ++ [time.utod (u % 10)]

/-- Go `appendInt(b, x, width)`, returning the bytes appended: a minus sign for a
negative `x`, then the decimal digits of `|x|` padded with zeros to `width`. -/
def time.appendInt (x : Int) (width : Nat) : GoString :=
  let u := x.natAbs
  let sign : GoString := if x < 0 then ['-'.toUInt8] else []
  if width = 2 ∧ u < 100 then
    sign ++ [time.utod (u / 10), time.utod (u % 10)]
  else if width = 4 ∧ u < 10000 then
    sign ++ [time.utod (u / 1000), time.utod (u / 100 % 10), time.utod (u / 10 % 10),
      time.utod (u % 10)]
  else
    let ds := if u = 0 then ['0'.toUInt8] else time.digits (u + 1) u
    sign ++ List.replicate (width - ds.length) '0'.toUInt8 ++ ds

/-- Go `t.Format("20060102150405")`: the chunks year (4), month (2), day (2), hour (2),
minute (2), second (2). -/
def Time.formatCompact (t : Time) : GoString :=
  time.appendInt t.year 4 ++ time.appendInt t.month 2 ++ time.appendInt t.day 2 ++
  time.appendInt t.hour 2 ++ time.appendInt t.minute 2 ++ time.appendInt t.second 2

/-- Go `t.Format("2006-01-02")`. -/
def Time.formatDate (t : Time) : GoString :=
  time.appendInt t.year 4 ++ '-'.toUInt8 :: time.appendInt t.month 2 ++
  '-'.toUInt8 :: time.appendInt t.day 2

/-- The zone chunk `Z07:00` of Go `Format`: `Z` for UTC, otherwise sign, hours and
minutes of the offset. -/
def Time.formatZone (t : Time) : GoString :=
  if t.offset = 0 then ['Z'.toUInt8]
  else
    let zone := Int.tdiv t.offset 60
    let sign := if zone < 0 then '-'.toUInt8 else '+'.toUInt8
    let zone := zone.natAbs
    sign :: time.appendInt (zone / 60 : Nat) 2 ++
      ':'.toUInt8 :: time.appendInt (zone % 60 : Nat) 2

/-- Go `t.Format(time.RFC3339)`, layout `2006-01-02T15:04:05Z07:00`. -/
def Time.formatRFC3339 (t : Time) : GoString :=
  t.formatDate ++ 'T'.toUInt8 :: time.appendInt t.hour 2 ++
  ':'.toUInt8 :: time.appendInt t.minute 2 ++
  ':'.toUInt8 :: time.appendInt t.second 2 ++ t.formatZone

/-! ## UTF-8 and the strings `encoding/json` writes -/

/-- Go `unicode/utf8`, tables `first` and `acceptRanges`: for a lead byte of a
multi-byte sequence, the size of the sequence and the lowest and highest second byte
accepted; `none` for a byte that cannot start one (`0x80` to `0xC1`, `0xF5` to `0xFF`). -/
def utf8.lead (b : UInt8) : Option (Nat × UInt8 × UInt8) :=
  if 0xC2 ≤ b ∧ b ≤ 0xDF then some (2, 0x80, 0xBF)
  else if b = 0xE0 then some (3, 0xA0, 0xBF)
  else if 0xE1 ≤ b ∧ b ≤ 0xEC then some (3, 0x80, 0xBF)
  else if b = 0xED then some (3, 0x80, 0x9F)
  else if 0xEE ≤ b ∧ b ≤ 0xEF then some (3, 0x80, 0xBF)
  else if b = 0xF0 then some (4, 0x90, 0xBF)
  else if 0xF1 ≤ b ∧ b ≤ 0xF3 then some (4, 0x80, 0xBF)
  else if b = 0xF4 then some (4, 0x80, 0x8F)
  else none

/-- Whether a byte is a continuation byte, `0x80` to `0xBF`. -/
def utf8.isContinuation (b : UInt8) : Bool := 0x80 ≤ b && b ≤ 0xBF

/-- Go `utf8.DecodeRuneInString` on a string whose first byte is not ASCII: the size of
the valid sequence at its head, or `none` where Go returns `(RuneError, 1)`. -/
def utf8.sequenceSize : GoString → Option Nat
  | [] => none
  | s0 :: rest =>
    match utf8.lead s0, rest with
    | none, _ => none
    | some _, [] => none
    | some (sz, lo, hi), s1 :: rest =>
      if s1 < lo ∨ hi < s1 then none
      else if sz ≤ 2 then some 2
      else
        match rest with
        | [] => none
        | s2 :: rest =>
          if ¬ utf8.isContinuation s2 then none
          else if sz ≤ 3 then some 3
          else
            match rest with
            | [] => none
            | s3 :: _ => if ¬ utf8.isContinuation s3 then none else some 4

/-- The loop of Go `utf8.ValidString`; the first argument bounds the number of
steps. -/
def utf8.validLoop : Nat → GoString → Bool
  | _, [] => true
  | 0, _ :: _ => false
  | fuel + 1, b :: rest =>
    if b < 0x80 then utf8.validLoop fuel rest
    else
      match utf8.sequenceSize (b :: rest) with
      | none => false
      | some size => utf8.validLoop fuel ((b :: rest).drop size)

/-- Go `utf8.ValidString`: whether the string is valid UTF-8. -/
def utf8.ValidString (s : GoString) : Bool := utf8.validLoop s.length s

/-- The UTF-8 bytes of U+FFFD, the replacement character. -/
def utf8.replacement : GoString := [0xEF, 0xBF, 0xBD]

/-- The loop of `appendString` in Go `encoding/json`, giving the text of the JSON
string written: ASCII bytes and valid sequences stand for themselves (escapes are a
matter of spelling), a byte that does not decode is written as U+FFFD.  The first
argument bounds the number of steps. -/
def json.textLoop : Nat → GoString → GoString
  | _, [] => []
  | 0, _ :: _ => []
  | fuel + 1, b :: rest =>
    if b < 0x80 then b :: json.textLoop fuel rest
    else
      match utf8.sequenceSize (b :: rest) with
      | none => utf8.replacement ++ json.textLoop fuel rest
      | some size => (b :: rest).take size ++ json.textLoop fuel ((b :: rest).drop size)

/-- The text of the JSON string `encoding/json` writes for a Go string. -/
def json.text (s : GoString) : GoString := json.textLoop s.length s

/-! ## Environment and configuration helpers -/

/-- The process environment: `none` for a variable that is not set. -/
abbrev Env := GoString → Option GoString

/-- Go `os.Getenv`: the value of the variable, empty if it is not set. -/
def os.Getenv (env : Env) (key : GoString) : GoString := (env key).getD []

/-- Source `getEnv(key, defaultValue)`. -/
def getEnv (env : Env) (key defaultValue : GoString) : GoString :=
  let value := os.Getenv env key
  if value = [] then defaultValue else value

/-- Source `getCustomTags()`. -/
def getCustomTags (env : Env) : Slice :=
  let customTags := os.Getenv env (str "FSS_CUSTOM_TAGS")
  if customTags = [] then some []
  else some (strings.Split customTags ','.toUInt8)

/-! ## Wire entities and their JSON documents -/

/-- A JSON value as the two response types produce them; a string is given by the
UTF-8 bytes of its text. -/
inductive JsonValue where
  | null
  | bool (b : Bool)
  | str (s : GoString)
  | strs (l : List GoString)
deriving DecidableEq

/-- A JSON object: its members in the order written. -/
abbrev JsonObject := List (String × JsonValue)

/-- The member of an object under a key, if there is one. -/
def JsonObject.member (o : JsonObject) (key : String) : Option JsonValue :=
  (o.find? (fun kv => kv.1 == key)).map (·.2)

/-- Go `encoding/json` on a `string` field. -/
def json.ofString (s : GoString) : JsonValue := .str (json.text s)

/-- Go `encoding/json` on a `[]string` field: `null` for the nil slice. -/
def Slice.toJson : Slice → JsonValue
  | none => .null
  | some l => .strs (l.map json.text)

/-- Source `ScanResponse`. -/
structure ScanResponse where
  IsSafe : Bool
  Message : GoString
  ScanID : GoString
  Detections : GoString
  Tags : Slice
deriving DecidableEq

/-- Source `HealthResponse`. -/
structure HealthResponse where
  Status : GoString
  Timestamp : GoString
  CustomTags : Slice
  APIEndpoint : GoString
deriving DecidableEq

/-- The JSON document Go `encoding/json` writes for a `ScanResponse`, following the
struct tags: `scanId`, `detections` and `tags` carry `omitempty` and are left out when
the string is empty, respectively the slice has length zero. -/
def ScanResponse.marshal (r : ScanResponse) : JsonObject :=
  [("isSafe", .bool r.IsSafe), ("message", json.ofString r.Message)] ++
  (if r.ScanID = [] then [] else [("scanId", json.ofString r.ScanID)]) ++
  (if r.Detections = [] then [] else [("detections", json.ofString r.Detections)]) ++
  (if r.Tags.elems = [] then [] else [("tags", r.Tags.toJson)])

/-- The JSON document Go `encoding/json` writes for a `HealthResponse`: no field is
optional. -/
def HealthResponse.marshal (r : HealthResponse) : JsonObject :=
  [("status", json.ofString r.Status), ("timestamp", json.ofString r.Timestamp),
   ("customTags", r.CustomTags.toJson), ("apiEndpoint", json.ofString r.APIEndpoint)]

/-! ## Requests, responses, events -/

/-- What a handler sees of an `*http.Request`: the method, the headers (keys in
canonical form) and the outcome of `io.ReadAll(r.Body)`, either the data or the error
text. -/
structure Request where
  Method : GoString
  Header : List (GoString × GoString)
  Body : Except GoString Bytes

/-- Go `r.Header.Get(key)`: the first value under `key`, empty if there is none. -/
def Request.headerGet (r : Request) (key : GoString) : GoString :=
  match r.Header.find? (fun kv => kv.1 == key) with
  | none => []
  | some kv => kv.2

/-- The body of a response.  `http.Error` prints its message as one line and
`Encoder.Encode` writes the document followed by a newline; a body is represented by
the message, respectively the document, of that line. -/
inductive ResponseBody where
  | text (msg : GoString)
  | json (doc : JsonObject)
deriving DecidableEq

/-- What the handler made the `http.ResponseWriter` answer. -/
structure Response where
  status : Nat
  contentType : GoString
  body : ResponseBody
deriving DecidableEq

/-- Go `http.Error(w, msg, code)`. -/
def http.Error (msg : GoString) (code : Nat) : Response :=
  { status := code, contentType := str "text/plain; charset=utf-8", body := .text msg }

/-- An argument of a log line. -/
inductive LogArg where
  | str (s : GoString)
  | strs (l : Slice)
deriving DecidableEq

/-- The observable actions of a handler besides the response: reading the body,
logging, calling the scanning client, handing a `ScanResponse` to the JSON encoder. -/
inductive Event where
  | readBody
  | log (format : String) (args : List LogArg)
  | scanBuffer (data : Bytes) (identifier : GoString) (tags : Slice)
  | encode (response : ScanResponse)
deriving DecidableEq

/-- The scanning client as the handler uses it: `client.ScanBuffer(data, identifier,
tags)` gives a verdict or fails with an error text. -/
abbrev ScanBuffer := Bytes → GoString → Slice → Except GoString GoString

/-! ## The handlers -/

/-- Source: the filename of a request, `X-Filename` or `"unknown"`. -/
def requestFilename (r : Request) : GoString :=
  let filename := r.headerGet (str "X-Filename")
  if filename = [] then str "unknown" else filename

/-- Source: the identifier of a scan, from the first clock reading. -/
def scanIdentifier (now : Time) (filename : GoString) : GoString :=
  now.formatCompact ++ str "-" ++ filepath.Base filename

/-- Source: the tags of a scan, from the second clock reading. -/
def scanTags (customTags : Slice) (now : Time) (filename : GoString) : Slice :=
  Slice.appendTo
    [str "bytevault", str "upload", filepath.Ext filename, now.formatDate]
    customTags

/-- Source: the `/scan` handler.  `customTags` and `client` are the variables of `main`
the closure captures; `now₁` and `now₂` are the two readings of `time.Now()`;
`encodeErr` is what `json.NewEncoder(w).Encode(response)` returns when it is reached,
`none` for success and otherwise the error text. -/
def scanHandler (customTags : Slice) (client : ScanBuffer) (now₁ now₂ : Time)
    (encodeErr : Option GoString) (r : Request) : Response × List Event :=
  if r.Method ≠ str "POST" then
    (http.Error (str "Method not allowed") 405, [])
  else
    match r.Body with
    | .error err =>
      (http.Error (str "Failed to read request body") 400,
        [.readBody, .log "Error reading request body: %v" [.str err]])
    | .ok data =>
      let filename := requestFilename r
      let identifier := scanIdentifier now₁ filename
      let tags := scanTags customTags now₂ filename
      let started : List Event :=
        [.readBody,
         .log "Starting scan for file: %s with tags: %v" [.str identifier, .strs tags],
         .scanBuffer data identifier tags]
      match client data identifier tags with
      | .error err =>
        (http.Error (str "Scanning failed") 500,
          started ++ [.log "Scan error for %s: %v" [.str identifier, .str err]])
      | .ok scanResult =>
        let response : ScanResponse :=
          { IsSafe := scanResult == str "clean"
            Message := scanResult
            ScanID := identifier
            Tags := tags
            Detections := scanResult }
        match encodeErr with
        | some err =>
          (http.Error (str "Error encoding response") 500,
            started ++ [.encode response,
              .log "Error encoding response: %v" [.str err]])
        | none =>
          ({ status := 200, contentType := str "application/json",
             body := .json response.marshal },
            started ++ [.encode response,
              .log "Scan completed for %s: %s with tags: %v"
                [.str identifier, .str scanResult, .strs tags]])

/-- Source: the value the `/health` handler encodes. -/
def healthResponse (customTags : Slice) (region : GoString) (now : Time) :
    HealthResponse :=
  { Status := str "healthy"
    Timestamp := now.formatRFC3339
    CustomTags := customTags
    APIEndpoint := region }

/-- Source: the `/health` handler.  It looks at nothing of the request, writes the
status 200 before encoding and discards what `Encode` returns, so it has one path. -/
def healthHandler (customTags : Slice) (region : GoString) (now : Time)
    (_r : Request) : Response × List Event :=
  ({ status := 200, contentType := str "application/json",
     body := .json (healthResponse customTags region now).marshal }, [])

/-! ## `main` -/

/-- The start-up actions of `main`, in order. -/
inductive MainEvent where
  | fatal (msg : String) (args : List GoString)
  | openLogFile
  | setLogOutput
  | log (format : String) (args : List LogArg)
  | newClient (apiKey region : GoString)
  | setDigestDisable
  | handleFunc (pattern : String)
  | listenAndServe (addr : String)
deriving DecidableEq

/-- Source `main`, up to the call of `http.ListenAndServe`.  `openFile` is the outcome
of opening the log file and `newClient` the outcome of `amaasclient.NewClient` (`none`
for success, otherwise the error text).  `log.Fatal` ends the process, so nothing
follows a `fatal` event. -/
def main (env : Env) (openFile newClient : Option GoString) : List MainEvent :=
  let apiKey := os.Getenv env (str "FSS_API_KEY")
  let region := getEnv env (str "FSS_REGION") (str "us-1")
  if apiKey = [] then
    [.fatal "FSS_API_KEY environment variable must be set" []]
  else
    let customTags := getCustomTags env
    match openFile with
    | some err => [.openLogFile, .fatal "Error opening log file: %v" [err]]
    | none =>
      let started : List MainEvent :=
        [.openLogFile, .setLogOutput,
         .log "Scanner Service Starting" [],
         .log "Configuration:" [],
         .log "- Region: %s" [.str region],
         .log "- Custom Tags: %v" [.strs customTags],
         .newClient apiKey region]
      match newClient with
      | some err => started ++ [.fatal "Failed to create AMaaS client: %v" [err]]
      | none =>
        started ++
        [.setDigestDisable,
         .handleFunc "/scan",
         .handleFunc "/health",
         .log "Scanner service starting on :3001" [],
         .listenAndServe ":3001"]

/-- The configuration `main` hands to the handlers it registers. -/
structure Config where
  region : GoString
  customTags : Slice
deriving DecidableEq

/-- Source `main`: the values of `region` and `customTags` the closures capture. -/
def loadConfig (env : Env) : Config :=
  { region := getEnv env (str "FSS_REGION") (str "us-1")
    customTags := getCustomTags env }

/-- One request served by the process: what arrives and what the outside world answers
while it is handled. -/
inductive Call where
  | scan (client : ScanBuffer) (now₁ now₂ : Time) (encodeErr : Option GoString)
      (r : Request)
  | health (now : Time) (r : Request)

/-- The registered handlers applied to a call.  The closures capture `customTags`,
`region` and `client` only, and none of them is ever assigned after start-up. -/
def serve (cfg : Config) : Call → Response × List Event
  | .scan client now₁ now₂ encodeErr r =>
    scanHandler cfg.customTags client now₁ now₂ encodeErr r
  | .health now r => healthHandler cfg.customTags cfg.region now r

/-- The member of the JSON document of a response under a key; `none` when the body is
not a JSON document or the document has no such member. -/
def Response.jsonMember (resp : Response) (key : String) : Option JsonValue :=
  match resp.body with
  | .json doc => doc.member key
  | .text _ => none

/-- Whether an event is a call of the scanning client. -/
def Event.isScanBuffer : Event → Bool
  | .scanBuffer _ _ _ => true
  | _ => false

/-- Whether an event is a call of the JSON encoder. -/
def Event.isEncode : Event → Bool
  | .encode _ => true
  | _ => false

/-- The requests of a process served one after the other. -/
def serveAll (cfg : Config) (calls : List Call) : List (Response × List Event) :=
  calls.map (serve cfg)

/-! ## Sample inputs -/

/-- A clock reading: 2026-11-04 09:05:00 UTC. -/
def sampleTime : Time :=
  { year := 2026, month := 11, day := 4, hour := 9, minute := 5, second := 0, offset := 0 }

/-- A later clock reading in another zone: 2026-11-05 00:00:07 +01:00. -/
def sampleTimeLater : Time :=
  { year := 2026, month := 11, day := 5, hour := 0, minute := 0, second := 7,
    offset := 3600 }

/-- The environment `FSS_API_KEY=k1`, `FSS_REGION=us-1`, `FSS_CUSTOM_TAGS=a,b`. -/
def sampleEnv : Env := fun key =>
  if key = str "FSS_API_KEY" then some (str "k1")
  else if key = str "FSS_REGION" then some (str "us-1")
  else if key = str "FSS_CUSTOM_TAGS" then some (str "a,b")
  else none

/-- The environment in which only `FSS_CUSTOM_TAGS` is set, to the given value. -/
def tagsEnv (value : GoString) : Env := fun key =>
  if key = str "FSS_CUSTOM_TAGS" then some value else none

/-- An environment with no variable set. -/
def emptyEnv : Env := fun _ => none

/-- A request with the given method and `X-Filename`, whose body reads as `hello`. -/
def sampleRequest (method filename : GoString) : Request :=
  { Method := method
    Header := [(str "X-Filename", filename)]
    Body := .ok [104, 101, 108, 108, 111] }

/-- A scanning client that answers every call with the same outcome. -/
def constClient (outcome : Except GoString GoString) : ScanBuffer := fun _ _ _ => outcome

/-! ## UTF-8 validity and the text of a JSON string -/

/-- A sequence size is at least one. -/
theorem sequenceSize_pos (s : GoString) (size : Nat) (h : utf8.sequenceSize s = some size) :
    1 ≤ size := by
  unfold utf8.sequenceSize at h
  repeat' split at h
  all_goals first
    | (cases h; done)
    | (cases h; omega)

theorem validLoop_text (fuel : Nat) (s : GoString) (h : utf8.validLoop fuel s = true) :
    json.textLoop fuel s = s := by
  induction fuel generalizing s with
  | zero =>
    cases s with
    | nil => rfl
    | cons b rest => simp [utf8.validLoop] at h
  | succ fuel ih =>
    cases s with
    | nil => rfl
    | cons b rest =>
      unfold utf8.validLoop at h
      unfold json.textLoop
      by_cases hb : b < 0x80
      · rw [if_pos hb] at h ⊢
        rw [ih rest h]
      · rw [if_neg hb] at h ⊢
        cases hs : utf8.sequenceSize (b :: rest) with
        | none => rw [hs] at h; cases h
        | some size =>
          rw [hs] at h
          simp only at h ⊢
          rw [ih _ h, List.take_append_drop]

/-- The text written is never shorter than the string, and longer when the string is
not valid UTF-8. -/
theorem textLoop_length (fuel : Nat) (s : GoString) (hf : s.length ≤ fuel) :
    s.length ≤ (json.textLoop fuel s).length ∧
    (utf8.validLoop fuel s = false → s.length < (json.textLoop fuel s).length) := by
  induction fuel generalizing s with
  | zero =>
    cases s with
    | nil => simp [json.textLoop, utf8.validLoop]
    | cons b rest => simp at hf
  | succ fuel ih =>
    cases s with
    | nil => simp [json.textLoop, utf8.validLoop]
    | cons b rest =>
      have hrest : rest.length ≤ fuel := by simpa using hf
      unfold utf8.validLoop json.textLoop
      by_cases hb : b < 0x80
      · rw [if_pos hb, if_pos hb]
        obtain ⟨h1, h2⟩ := ih rest hrest
        refine ⟨by simpa using h1, fun hv => ?_⟩
        have := h2 hv
        simpa using this
      · rw [if_neg hb, if_neg hb]
        cases hs : utf8.sequenceSize (b :: rest) with
        | none =>
          obtain ⟨h1, _⟩ := ih rest hrest
          simp only [utf8.replacement, List.length_append, List.length_cons,
            List.length_nil]
          constructor <;> intros <;> omega
        | some size =>
          have hpos := sequenceSize_pos _ _ hs
          have hdrop : ((b :: rest).drop size).length ≤ fuel := by
            simp only [List.length_drop, List.length_cons]
            omega
          obtain ⟨h1, h2⟩ := ih _ hdrop
          simp only [List.length_append, List.length_take, List.length_cons]
          simp only [List.length_drop, List.length_cons] at h1 h2
          refine ⟨by omega, fun hv => ?_⟩
          have := h2 hv
          omega

/-- The text of the JSON string written for a Go string is the string itself exactly
when the string is valid UTF-8. -/
theorem text_eq_iff_valid (s : GoString) :
    json.text s = s ↔ utf8.ValidString s = true := by
  unfold json.text utf8.ValidString
  constructor
  · intro h
    by_contra hv
    have := (textLoop_length s.length s le_rfl).2 (by simpa using hv)
    rw [h] at this
    exact Nat.lt_irrefl _ this
  · exact validLoop_text _ _

/-- A list of valid strings is written as it is. -/
theorem map_text_eq_iff_valid (l : List GoString) :
    l.map json.text = l ↔ ∀ t ∈ l, utf8.ValidString t = true := by
  induction l with
  | nil => simp
  | cons a l ih =>
    simp only [List.map_cons, List.cons.injEq, List.mem_cons, forall_eq_or_imp]
    rw [ih, text_eq_iff_valid]

/-! ## Library functions: `filepath.Ext`, `filepath.Base`, `strings.Split`, `Format` -/

theorem extLoop_none (p : GoString) (i : Nat) (h : p[i]? = none) :
    filepath.extLoop p (i + 1) = [] := by
  rw [filepath.extLoop, h]

theorem extLoop_some (p : GoString) (i : Nat) (c : UInt8) (h : p[i]? = some c) :
    filepath.extLoop p (i + 1) =
      if os.IsPathSeparator c then []
      else if c = '.'.toUInt8 then p.drop i else filepath.extLoop p i := by
  rw [filepath.extLoop, h]

/-- What the loop of `filepath.Ext` returns: nothing, or the suffix at a dot that no dot
and no separator follows below the start index. -/
theorem extLoop_spec (p : GoString) (k : Nat) :
    filepath.extLoop p k = [] ∨
    ∃ i, i < k ∧ filepath.extLoop p k = p.drop i ∧ p[i]? = some '.'.toUInt8 ∧
      ∀ j c, i < j → j < k → p[j]? = some c → c ≠ '.'.toUInt8 ∧ c ≠ '/'.toUInt8 := by
  induction k with
  | zero => left; rfl
  | succ k ih =>
    cases hk : p[k]? with
    | none => left; exact extLoop_none p k hk
    | some c =>
      rw [extLoop_some p k c hk]
      by_cases hsep : os.IsPathSeparator c = true
      · left; rw [if_pos hsep]
      · rw [if_neg hsep]
        by_cases hdot : c = '.'.toUInt8
        · right
          rw [if_pos hdot]
          refine ⟨k, Nat.lt_succ_self k, rfl, by rw [hk, hdot], ?_⟩
          intro j c' h1 h2; omega
        · rw [if_neg hdot]
          rcases ih with h | ⟨i, hi, hdrop, hget, hall⟩
          · left; exact h
          · right
            refine ⟨i, Nat.lt_succ_of_lt hi, hdrop, hget, ?_⟩
            intro j c' h1 h2 hj
            rcases Nat.lt_succ_iff_lt_or_eq.mp h2 with h3 | h3
            · exact hall j c' h1 h3 hj
            · subst h3
              rw [hk] at hj
              cases hj
              refine ⟨hdot, ?_⟩
              intro hc
              apply hsep
              simp [os.IsPathSeparator, hc]

theorem ext_shape (p : GoString) :
    filepath.Ext p = [] ∨
    ∃ rest, filepath.Ext p = '.'.toUInt8 :: rest ∧ filepath.Ext p <:+ p ∧ '.'.toUInt8 ∉ rest ∧ '/'.toUInt8 ∉ rest := by
  rcases extLoop_spec p p.length with h | ⟨i, hi, hdrop, hget, hall⟩
  · left; exact h
  · right
    have hlt : i < p.length := hi
    have hcons : p.drop i = '.'.toUInt8 :: p.drop (i + 1) := by
      rw [List.drop_eq_getElem_cons hlt]
      congr 1
      rw [List.getElem?_eq_getElem hlt] at hget
      exact Option.some.inj hget
    have hnone : ∀ c ∈ p.drop (i + 1), c ≠ '.'.toUInt8 ∧ c ≠ '/'.toUInt8 := by
      intro c hc
      obtain ⟨j, hj⟩ := List.mem_iff_getElem?.mp hc
      rw [List.getElem?_drop] at hj
      have hjlt : i + 1 + j < p.length := by
        by_contra hge
        rw [List.getElem?_eq_none (Nat.le_of_not_lt hge)] at hj
        cases hj
      exact hall (i + 1 + j) c (by omega) hjlt hj
    refine ⟨p.drop (i + 1), ?_, ?_, ?_, ?_⟩
    · unfold filepath.Ext; rw [hdrop, hcons]
    · unfold filepath.Ext; rw [hdrop]; exact List.drop_suffix i p
    · intro hmem; exact (hnone _ hmem).1 rfl
    · intro hmem; exact (hnone _ hmem).2 rfl

theorem ext_of_last_dot (pre rest : GoString) (hdot : '.'.toUInt8 ∉ rest) (hsep : '/'.toUInt8 ∉ rest) :
    filepath.Ext (pre ++ '.'.toUInt8 :: rest) = '.'.toUInt8 :: rest := by
  have key : ∀ m, m ≤ rest.length →
      filepath.extLoop (pre ++ '.'.toUInt8 :: rest) (pre.length + 1 + m) = '.'.toUInt8 :: rest := by
    intro m
    induction m with
    | zero =>
      intro _
      show filepath.extLoop (pre ++ '.'.toUInt8 :: rest) (pre.length + 1) = _
      rw [extLoop_some _ _ '.'.toUInt8 (by
        rw [List.getElem?_append_right (le_refl _)]; simp)]
      simp [os.IsPathSeparator, show ¬ ('.'.toUInt8 = '/'.toUInt8) by decide]
    | succ m ih =>
      intro hm
      have hlt : m < rest.length := hm
      show filepath.extLoop (pre ++ '.'.toUInt8 :: rest) (pre.length + 1 + m + 1) = _
      have hget : (pre ++ '.'.toUInt8 :: rest)[pre.length + 1 + m]? = some rest[m] := by
        rw [List.getElem?_append_right (by omega)]
        have : pre.length + 1 + m - pre.length = m + 1 := by omega
        rw [this]
        simp [List.getElem?_eq_getElem hlt]
      rw [extLoop_some _ _ _ hget]
      have h1 : rest[m] ≠ '.'.toUInt8 := fun h => hdot (h ▸ List.getElem_mem hlt)
      have h2 : rest[m] ≠ '/'.toUInt8 := fun h => hsep (h ▸ List.getElem_mem hlt)
      simp [os.IsPathSeparator, h1, h2]
      exact ih (Nat.le_of_lt hlt)
  have := key rest.length le_rfl
  unfold filepath.Ext
  rw [show (pre ++ '.'.toUInt8 :: rest).length = pre.length + 1 + rest.length by simp; omega]
  exact this
/-- A list with a dot splits at its last dot. -/
theorem last_dot_split (l : GoString) (h : '.'.toUInt8 ∈ l) :
    ∃ a b, l = a ++ '.'.toUInt8 :: b ∧ '.'.toUInt8 ∉ b := by
  obtain ⟨as, bs, hsplit, hnot⟩ := List.eq_append_cons_of_mem (List.mem_reverse.mpr h)
  refine ⟨bs.reverse, as.reverse, ?_, by simpa using hnot⟩
  have := congrArg List.reverse hsplit
  simpa using this

/-- The extension is empty exactly when every dot of the path is followed by a
separator, that is when the last path element has no dot. -/
theorem ext_eq_nil_iff (F : GoString) :
    filepath.Ext F = [] ↔ ∀ pre rest, F = pre ++ '.'.toUInt8 :: rest → '/'.toUInt8 ∈ rest := by
  constructor
  · intro hnil pre rest hF
    by_contra hsep
    obtain ⟨a, b, hab, hb⟩ := last_dot_split ('.'.toUInt8 :: rest) (List.mem_cons_self _ _)
    have hsub : ∀ c ∈ b, c ∈ '.'.toUInt8 :: rest := by
      intro c hc
      rw [hab]
      exact List.mem_append_right _ (List.mem_cons_of_mem _ hc)
    have hb2 : '/'.toUInt8 ∉ b := by
      intro hc
      rcases List.mem_cons.mp (hsub _ hc) with h | h
      · exact absurd h (by decide)
      · exact hsep h
    have hF2 : F = (pre ++ a) ++ '.'.toUInt8 :: b := by
      rw [hF, hab, List.append_assoc]
    have := ext_of_last_dot (pre ++ a) b hb hb2
    rw [← hF2, hnil] at this
    cases this
  · intro hall
    rcases ext_shape F with h | ⟨rest, h1, h2, _, h4⟩
    · exact h
    · exfalso
      obtain ⟨t, ht⟩ := h2
      rw [h1] at ht
      exact h4 (hall t rest ht.symm)

theorem isPathSeparator_iff (c : UInt8) : os.IsPathSeparator c = true ↔ c = '/'.toUInt8 := by
  simp [os.IsPathSeparator]

theorem stripTrailing_some (p : GoString) (n : Nat) (c : UInt8) (h : p[n]? = some c) :
    filepath.stripTrailing p (n + 1) =
      if os.IsPathSeparator c then filepath.stripTrailing p n else p.take (n + 1) := by
  rw [filepath.stripTrailing, h]

theorem lastSeparator_some (p : GoString) (i : Nat) (c : UInt8) (h : p[i]? = some c) :
    filepath.lastSeparator p (i + 1) =
      if os.IsPathSeparator c then i + 1 else filepath.lastSeparator p i := by
  rw [filepath.lastSeparator, h]

/-- The first loop of `filepath.Base` keeps a prefix: what it cuts is separators only,
and what it keeps does not end in a separator. -/
theorem stripTrailing_spec (p : GoString) (n : Nat) (hn : n ≤ p.length) :
    ∃ m, m ≤ n ∧ filepath.stripTrailing p n = p.take m ∧
      (∀ j c, m ≤ j → j < n → p[j]? = some c → c = '/'.toUInt8) ∧
      (m = 0 ∨ ∃ c, p[m - 1]? = some c ∧ c ≠ '/'.toUInt8) := by
  induction n with
  | zero => exact ⟨0, le_rfl, by simp [filepath.stripTrailing], by intro j c h1 h2; omega, Or.inl rfl⟩
  | succ n ih =>
    have hlt : n < p.length := hn
    have hget : p[n]? = some p[n] := List.getElem?_eq_getElem hlt
    rw [stripTrailing_some p n _ hget]
    by_cases hsep : os.IsPathSeparator p[n] = true
    · rw [if_pos hsep]
      obtain ⟨m, hm, heq, hall, hlast⟩ := ih (Nat.le_of_lt hlt)
      refine ⟨m, Nat.le_succ_of_le hm, heq, ?_, hlast⟩
      intro j c h1 h2 hj
      rcases Nat.lt_succ_iff_lt_or_eq.mp h2 with h3 | h3
      · exact hall j c h1 h3 hj
      · subst h3
        rw [hget] at hj
        cases hj
        exact (isPathSeparator_iff _).1 hsep
    · rw [if_neg hsep]
      refine ⟨n + 1, le_rfl, rfl, by intro j c h1 h2; omega, Or.inr ⟨p[n], hget, ?_⟩⟩
      intro h
      exact hsep ((isPathSeparator_iff _).2 h)

/-- The second loop of `filepath.Base` stops just after the last separator. -/
theorem lastSeparator_spec (q : GoString) (k : Nat) (hk : k ≤ q.length) :
    filepath.lastSeparator q k ≤ k ∧
    (∀ j c, filepath.lastSeparator q k ≤ j → j < k → q[j]? = some c → c ≠ '/'.toUInt8) ∧
    (filepath.lastSeparator q k = 0 ∨ q[filepath.lastSeparator q k - 1]? = some '/'.toUInt8) := by
  induction k with
  | zero =>
    exact ⟨by simp [filepath.lastSeparator], by intro j c h1 h2; omega,
      Or.inl (by simp [filepath.lastSeparator])⟩
  | succ k ih =>
    have hlt : k < q.length := hk
    have hget : q[k]? = some q[k] := List.getElem?_eq_getElem hlt
    rw [lastSeparator_some q k _ hget]
    by_cases hsep : os.IsPathSeparator q[k] = true
    · rw [if_pos hsep]
      refine ⟨le_rfl, by intro j c h1 h2; omega, Or.inr ?_⟩
      rw [Nat.add_sub_cancel, hget, (isPathSeparator_iff _).1 hsep]
    · rw [if_neg hsep]
      obtain ⟨hle, hall, hlast⟩ := ih (Nat.le_of_lt hlt)
      refine ⟨Nat.le_succ_of_le hle, ?_, hlast⟩
      intro j c h1 h2 hj
      rcases Nat.lt_succ_iff_lt_or_eq.mp h2 with h3 | h3
      · exact hall j c h1 h3 hj
      · subst h3
        rw [hget] at hj
        cases hj
        intro h
        exact hsep ((isPathSeparator_iff _).2 h)

/-- An element of a list is at some index. -/
theorem mem_drop_index (l : GoString) (i : Nat) (c : UInt8) (h : c ∈ l.drop i) :
    ∃ j, i ≤ j ∧ j < l.length ∧ l[j]? = some c := by
  obtain ⟨j, hj⟩ := List.mem_iff_getElem?.mp h
  rw [List.getElem?_drop] at hj
  have hjlt : i + j < l.length := by
    by_contra hge
    rw [List.getElem?_eq_none (Nat.le_of_not_lt hge)] at hj
    cases hj
  exact ⟨i + j, by omega, hjlt, hj⟩

/-- The base name of a non-empty path: `/` when the path is separators only; otherwise
a non-empty piece of the path without separator, followed by separators only and
preceded by nothing or by a part ending in a separator. -/
theorem base_spec (p : GoString) (hp : p ≠ []) :
    ((∀ c ∈ p, c = '/'.toUInt8) ∧ filepath.Base p = ['/'.toUInt8]) ∨
    (filepath.Base p ≠ [] ∧ '/'.toUInt8 ∉ filepath.Base p ∧
      ∃ pre post, p = pre ++ filepath.Base p ++ post ∧ (∀ c ∈ post, c = '/'.toUInt8) ∧
        (pre = [] ∨ pre.getLast? = some '/'.toUInt8)) := by
  obtain ⟨m, hm, hstrip, hcut, hkeep⟩ := stripTrailing_spec p p.length le_rfl
  have hlen : (p.take m).length = m := by simp [hm]
  obtain ⟨hile, hnosep, hsepAt⟩ := lastSeparator_spec (p.take m) (p.take m).length le_rfl
  set i := filepath.lastSeparator (p.take m) (p.take m).length with hi
  rw [hlen] at hile
  have hbase : filepath.Base p =
      if (p.take m).drop i = [] then ['/'.toUInt8] else (p.take m).drop i := by
    unfold filepath.Base
    rw [if_neg hp]
    simp only [hstrip]
  have hpost : ∀ c ∈ p.drop m, c = '/'.toUInt8 := by
    intro c hc
    obtain ⟨j, h1, h2, h3⟩ := mem_drop_index p m c hc
    exact hcut j c h1 h2 h3
  by_cases hm0 : m = 0
  · left
    subst hm0
    refine ⟨by simpa using hpost, ?_⟩
    rw [hbase]; simp
  · right
    have hilt : i < m := by
      rcases Nat.lt_or_ge i m with h | h
      · exact h
      · exfalso
        have him : i = m := Nat.le_antisymm hile h
        rcases hkeep with h0 | ⟨c, hc, hne⟩
        · exact hm0 h0
        · rcases hsepAt with h0 | hs
          · omega
          · rw [him, List.getElem?_take_of_lt (by omega)] at hs
            rw [hc] at hs
            exact hne (Option.some.inj hs)
    have hne : (p.take m).drop i ≠ [] := by
      intro h
      have := congrArg List.length h
      simp at this
      omega
    rw [hbase, if_neg hne]
    refine ⟨hne, ?_, p.take i, p.drop m, ?_, hpost, ?_⟩
    · intro hmem
      obtain ⟨j, h1, h2, h3⟩ := mem_drop_index (p.take m) i '/'.toUInt8 hmem
      exact hnosep j '/'.toUInt8 h1 h2 h3 rfl
    · have h1 : p.take i = (p.take m).take i := by
        rw [List.take_take, Nat.min_eq_left hile]
      rw [h1, List.take_append_drop, List.take_append_drop]
    · by_cases hi0 : i = 0
      · left; simp [hi0]
      · right
        rcases hsepAt with h0 | hs
        · exact absurd h0 hi0
        · rw [List.getElem?_take_of_lt (by omega)] at hs
          rw [List.getLast?_take, if_neg hi0, hs]
          rfl
theorem indexByte_none (s : GoString) (c : UInt8) (h : strings.IndexByte s c = none) :
    c ∉ s := by
  induction s with
  | nil => simp
  | cons x xs ih =>
    unfold strings.IndexByte at h
    by_cases hx : x = c
    · rw [if_pos hx] at h; cases h
    · rw [if_neg hx] at h
      simp only [Option.map_eq_none'] at h
      simp only [List.mem_cons, not_or]
      exact ⟨fun e => hx e.symm, ih h⟩

theorem indexByte_some (s : GoString) (c : UInt8) (m : Nat)
    (h : strings.IndexByte s c = some m) :
    c ∉ s.take m ∧ s = s.take m ++ c :: s.drop (m + 1) := by
  induction s generalizing m with
  | nil => cases h
  | cons x xs ih =>
    unfold strings.IndexByte at h
    by_cases hx : x = c
    · rw [if_pos hx] at h
      cases h
      simp [hx]
    · rw [if_neg hx] at h
      simp only [Option.map_eq_some'] at h
      obtain ⟨m', hm', rfl⟩ := h
      obtain ⟨h1, h2⟩ := ih m' hm'
      refine ⟨?_, ?_⟩
      · simp only [List.take_succ_cons, List.mem_cons, not_or]
        exact ⟨fun e => hx e.symm, h1⟩
      · simp only [List.take_succ_cons, List.drop_succ_cons, List.cons_append]
        rw [← h2]

theorem join_cons (a : GoString) (l : List GoString) (sep : UInt8) (hl : l ≠ []) :
    strings.Join (a :: l) sep = a ++ sep :: strings.Join l sep := by
  cases l with
  | nil => exact absurd rfl hl
  | cons b rest => rfl

/-- The loop of `genSplit`, given at least as many iterations as there are separators:
one piece more than separators, no separator inside a piece, and the pieces joined by
the separator are the input. -/
theorem genSplitLoop_spec (sep : UInt8) (k : Nat) (s : GoString) (hk : s.count sep ≤ k) :
    (strings.genSplitLoop sep k s).length = s.count sep + 1 ∧
    (∀ e ∈ strings.genSplitLoop sep k s, sep ∉ e) ∧
    strings.Join (strings.genSplitLoop sep k s) sep = s := by
  induction k generalizing s with
  | zero =>
    have h0 : s.count sep = 0 := Nat.le_zero.mp hk
    have hnot : sep ∉ s := List.count_eq_zero.mp h0
    simp [strings.genSplitLoop, strings.Join, h0, hnot]
  | succ k ih =>
    unfold strings.genSplitLoop
    cases hidx : strings.IndexByte s sep with
    | none =>
      have hnot : sep ∉ s := indexByte_none s sep hidx
      have h0 : s.count sep = 0 := List.count_eq_zero.mpr hnot
      simp [strings.Join, h0, hnot]
    | some m =>
      obtain ⟨hpre, hsplit⟩ := indexByte_some s sep m hidx
      have hcount : s.count sep = (s.drop (m + 1)).count sep + 1 := by
        conv_lhs => rw [hsplit]
        rw [List.count_append, List.count_cons_self, List.count_eq_zero.mpr hpre]
        omega
      obtain ⟨hlen, hall, hjoin⟩ := ih (s.drop (m + 1)) (by omega)
      refine ⟨?_, ?_, ?_⟩
      · simp only [List.length_cons, hlen, hcount]
      · intro e he
        simp only [List.mem_cons] at he
        rcases he with rfl | he
        · exact hpre
        · exact hall e he
      · have hne : strings.genSplitLoop sep k (s.drop (m + 1)) ≠ [] := by
          intro h
          rw [h] at hlen
          simp at hlen
        show strings.Join (s.take m :: strings.genSplitLoop sep k (s.drop (m + 1))) sep = s
        rw [join_cons _ _ _ hne, hjoin]
        exact hsplit.symm

theorem split_eq_loop (s : GoString) (sep : UInt8) :
    strings.Split s sep = strings.genSplitLoop sep (s.count sep) s := by
  unfold strings.Split strings.Count
  have h : s.count sep ≤ s.length := List.count_le_length sep s
  simp only
  rw [if_neg (by omega)]
  rfl

theorem split_spec (s : GoString) (sep : UInt8) :
    (strings.Split s sep).length = s.count sep + 1 ∧
    (∀ e ∈ strings.Split s sep, sep ∉ e) ∧
    strings.Join (strings.Split s sep) sep = s := by
  rw [split_eq_loop]
  exact genSplitLoop_spec sep _ s le_rfl
theorem utod_isDigit (d : Nat) (h : d < 10) : isDigit (time.utod d) = true := by
  interval_cases d <;> rfl

theorem appendInt_two (n : Nat) (h : n < 100) :
    time.appendInt (n : Int) 2 = [time.utod (n / 10), time.utod (n % 10)] := by
  unfold time.appendInt
  simp [h]

theorem appendInt_four (y : Int) (h0 : 0 ≤ y) (h : y ≤ 9999) :
    time.appendInt y 4 =
      [time.utod (y.natAbs / 1000), time.utod (y.natAbs / 100 % 10),
       time.utod (y.natAbs / 10 % 10), time.utod (y.natAbs % 10)] := by
  unfold time.appendInt
  have h1 : y.natAbs < 10000 := by omega
  have h2 : ¬ y < 0 := by omega
  simp [h1, h2]

/-- The compact stamp of a time with a four-digit year: fourteen decimal digits. -/
theorem formatCompact_digits (t : Time) (ht : t.wellFormed) (hy0 : 0 ≤ t.year)
    (hy : t.year ≤ 9999) :
    t.formatCompact.length = 14 ∧ ∀ c ∈ t.formatCompact, isDigit c = true := by
  obtain ⟨_, hmo, _, hd, hh, hmi, hs⟩ := ht
  have e1 := appendInt_four t.year hy0 hy
  have e2 := appendInt_two t.month (by omega)
  have e3 := appendInt_two t.day (by omega)
  have e4 := appendInt_two t.hour (by omega)
  have e5 := appendInt_two t.minute (by omega)
  have e6 := appendInt_two t.second (by omega)
  unfold Time.formatCompact
  rw [e1, e2, e3, e4, e5, e6]
  refine ⟨rfl, ?_⟩
  intro c hc
  simp only [List.cons_append, List.nil_append, List.mem_cons, List.mem_singleton,
    List.not_mem_nil, or_false] at hc
  rcases hc with h | h | h | h | h | h | h | h | h | h | h | h | h | h <;>
    (rw [h]; apply utod_isDigit; omega)

/-! ## Documents and handler paths -/

theorem marshal_member_isSafe (r : ScanResponse) :
    r.marshal.member "isSafe" = some (.bool r.IsSafe) := by
  simp [ScanResponse.marshal, JsonObject.member]

theorem marshal_member_message (r : ScanResponse) :
    r.marshal.member "message" = some (json.ofString r.Message) := by
  simp [ScanResponse.marshal, JsonObject.member]

theorem marshal_member_scanId (r : ScanResponse) :
    r.marshal.member "scanId" = if r.ScanID = [] then none else some (json.ofString r.ScanID) := by
  simp only [ScanResponse.marshal, JsonObject.member]
  split_ifs <;> simp

theorem marshal_member_detections (r : ScanResponse) :
    r.marshal.member "detections" =
      if r.Detections = [] then none else some (json.ofString r.Detections) := by
  simp only [ScanResponse.marshal, JsonObject.member]
  split_ifs <;> simp

theorem marshal_member_tags (r : ScanResponse) :
    r.marshal.member "tags" = if r.Tags.elems = [] then none else some r.Tags.toJson := by
  simp only [ScanResponse.marshal, JsonObject.member]
  split_ifs <;> simp

/-- The handler on a request that is not a POST. -/
theorem scanHandler_not_post (customTags : Slice) (client : ScanBuffer) (now₁ now₂ : Time)
    (encodeErr : Option GoString) (r : Request) (hm : r.Method ≠ (str "POST")) :
    scanHandler customTags client now₁ now₂ encodeErr r =
      (http.Error (str "Method not allowed") 405, []) := by
  unfold scanHandler
  rw [if_pos hm]

/-- The handler on a POST whose body cannot be read. -/
theorem scanHandler_read_error (customTags : Slice) (client : ScanBuffer) (now₁ now₂ : Time)
    (encodeErr : Option GoString) (r : Request) (err : GoString) (hm : r.Method = (str "POST"))
    (hb : r.Body = .error err) :
    scanHandler customTags client now₁ now₂ encodeErr r =
      (http.Error (str "Failed to read request body") 400,
        [.readBody, .log "Error reading request body: %v" [.str err]]) := by
  unfold scanHandler
  rw [if_neg (not_not_intro hm)]
  simp only [hb]

/-- The handler on a POST whose scan fails. -/
theorem scanHandler_scan_error (customTags : Slice) (client : ScanBuffer) (now₁ now₂ : Time)
    (encodeErr : Option GoString) (r : Request) (data : Bytes) (err : GoString) (hm : r.Method = (str "POST"))
    (hb : r.Body = .ok data)
    (hc : client data (scanIdentifier now₁ (requestFilename r))
      (scanTags customTags now₂ (requestFilename r)) = .error err) :
    scanHandler customTags client now₁ now₂ encodeErr r =
      (http.Error (str "Scanning failed") 500,
        [.readBody,
         .log "Starting scan for file: %s with tags: %v"
           [.str (scanIdentifier now₁ (requestFilename r)),
            .strs (scanTags customTags now₂ (requestFilename r))],
         .scanBuffer data (scanIdentifier now₁ (requestFilename r))
           (scanTags customTags now₂ (requestFilename r)),
         .log "Scan error for %s: %v"
           [.str (scanIdentifier now₁ (requestFilename r)), .str err]]) := by
  unfold scanHandler
  rw [if_neg (not_not_intro hm)]
  simp only [hb, hc, List.cons_append, List.nil_append]

/-- The handler on a POST whose scan gives a verdict and whose response is encoded. -/
theorem scanHandler_verdict (customTags : Slice) (client : ScanBuffer) (now₁ now₂ : Time)
    (r : Request) (data : Bytes) (v : GoString) (hm : r.Method = str "POST")
    (hb : r.Body = .ok data)
    (hc : client data (scanIdentifier now₁ (requestFilename r))
      (scanTags customTags now₂ (requestFilename r)) = .ok v) :
    scanHandler customTags client now₁ now₂ none r =
      ({ status := 200, contentType := str "application/json",
         body := .json (ScanResponse.marshal
           { IsSafe := v == str "clean"
             Message := v
             ScanID := scanIdentifier now₁ (requestFilename r)
             Tags := scanTags customTags now₂ (requestFilename r)
             Detections := v }) },
        [.readBody,
         .log "Starting scan for file: %s with tags: %v"
           [.str (scanIdentifier now₁ (requestFilename r)),
            .strs (scanTags customTags now₂ (requestFilename r))],
         .scanBuffer data (scanIdentifier now₁ (requestFilename r))
           (scanTags customTags now₂ (requestFilename r)),
         .encode
           { IsSafe := v == str "clean"
             Message := v
             ScanID := scanIdentifier now₁ (requestFilename r)
             Tags := scanTags customTags now₂ (requestFilename r)
             Detections := v },
         .log "Scan completed for %s: %s with tags: %v"
           [.str (scanIdentifier now₁ (requestFilename r)), .str v,
            .strs (scanTags customTags now₂ (requestFilename r))]]) := by
  unfold scanHandler
  rw [if_neg (not_not_intro hm)]
  simp only [hb, hc, List.cons_append, List.nil_append]

/-- The handler on a POST whose scan gives a verdict and whose response fails to be
encoded. -/
theorem scanHandler_encode_error (customTags : Slice) (client : ScanBuffer)
    (now₁ now₂ : Time) (r : Request) (data : Bytes) (v err : GoString)
    (hm : r.Method = str "POST") (hb : r.Body = .ok data)
    (hc : client data (scanIdentifier now₁ (requestFilename r))
      (scanTags customTags now₂ (requestFilename r)) = .ok v) :
    scanHandler customTags client now₁ now₂ (some err) r =
      (http.Error (str "Error encoding response") 500,
        [.readBody,
         .log "Starting scan for file: %s with tags: %v"
           [.str (scanIdentifier now₁ (requestFilename r)),
            .strs (scanTags customTags now₂ (requestFilename r))],
         .scanBuffer data (scanIdentifier now₁ (requestFilename r))
           (scanTags customTags now₂ (requestFilename r)),
         .encode
           { IsSafe := v == str "clean"
             Message := v
             ScanID := scanIdentifier now₁ (requestFilename r)
             Tags := scanTags customTags now₂ (requestFilename r)
             Detections := v },
         .log "Error encoding response: %v" [.str err]]) := by
  unfold scanHandler
  rw [if_neg (not_not_intro hm)]
  simp only [hb, hc, List.cons_append, List.nil_append]

theorem scanIdentifier_ne_nil (now : Time) (filename : GoString) :
    scanIdentifier now filename ≠ [] := by
  unfold scanIdentifier
  intro h
  have h2 := List.append_eq_nil.mp h
  have h3 := List.append_eq_nil.mp h2.1
  exact absurd h3.2 (by decide)

theorem scanTags_elems (customTags : Slice) (now : Time) (filename : GoString) :
    (scanTags customTags now filename).elems =
      [(str "bytevault"), (str "upload"), filepath.Ext filename, now.formatDate] ++
        customTags.elems := by
  simp [scanTags, Slice.appendTo, Slice.elems]

/-! ## The `/scan` handler: verdict, method check, failure, success -/

/-- C1 (amended).  On a POST whose body was read and whose scan returned the verdict
`v`, the handler hands one `ScanResponse` to the JSON encoder: its `IsSafe` is true
exactly when `v` is `"clean"`, its `Message` and `Detections` are `v`.  When the
encoding succeeds the answer is the 200 document of that value: `isSafe` is present
with that truth value; `message` is present and holds the text of `v`, which is `v`
exactly when `v` is valid UTF-8 (a byte that is not becomes U+FFFD); `detections` holds
the same text when `v` is not empty and is left out when `v` is empty, the field being
`omitempty`.  When the encoding fails the answer is 500 `Error encoding response`. -/
theorem scan_verdict_mapping (customTags : Slice) (client : ScanBuffer) (now₁ now₂ : Time)
    (encodeErr : Option GoString) (r : Request) (data : Bytes) (v : GoString)
    (hm : r.Method = str "POST") (hb : r.Body = .ok data)
    (hc : client data (scanIdentifier now₁ (requestFilename r))
      (scanTags customTags now₂ (requestFilename r)) = .ok v) :
    ∃ resp : ScanResponse,
      (scanHandler customTags client now₁ now₂ encodeErr r).2.filter Event.isEncode =
        [.encode resp] ∧
      (resp.IsSafe = true ↔ v = str "clean") ∧
      resp.Message = v ∧ resp.Detections = v ∧
      (encodeErr = none →
        (scanHandler customTags client now₁ now₂ encodeErr r).1 =
          { status := 200, contentType := str "application/json",
            body := .json resp.marshal } ∧
        ((scanHandler customTags client now₁ now₂ encodeErr r).1.jsonMember "isSafe" =
            some (.bool true) ↔ v = str "clean") ∧
        ((scanHandler customTags client now₁ now₂ encodeErr r).1.jsonMember "isSafe" =
            some (.bool false) ↔ v ≠ str "clean") ∧
        (scanHandler customTags client now₁ now₂ encodeErr r).1.jsonMember "message" =
          some (.str (json.text v)) ∧
        (scanHandler customTags client now₁ now₂ encodeErr r).1.jsonMember "detections" =
          (if v = [] then none else some (.str (json.text v))) ∧
        (json.text v = v ↔ utf8.ValidString v = true)) ∧
      (∀ err, encodeErr = some err →
        (scanHandler customTags client now₁ now₂ encodeErr r).1 =
          http.Error (str "Error encoding response") 500) := by
  refine ⟨{ IsSafe := v == str "clean", Message := v,
            ScanID := scanIdentifier now₁ (requestFilename r),
            Tags := scanTags customTags now₂ (requestFilename r),
            Detections := v }, ?_, by simp, rfl, rfl, ?_, ?_⟩
  · cases encodeErr with
    | none =>
      rw [scanHandler_verdict customTags client now₁ now₂ r data v hm hb hc]
      simp [List.filter, Event.isEncode]
    | some err =>
      rw [scanHandler_encode_error customTags client now₁ now₂ r data v err hm hb hc]
      simp [List.filter, Event.isEncode]
  · intro hnone
    subst hnone
    rw [scanHandler_verdict customTags client now₁ now₂ r data v hm hb hc]
    refine ⟨rfl, ?_, ?_, ?_, ?_, text_eq_iff_valid v⟩
    · simp [Response.jsonMember, marshal_member_isSafe]
    · simp [Response.jsonMember, marshal_member_isSafe]
    · simp [Response.jsonMember, marshal_member_message, json.ofString]
    · simp [Response.jsonMember, marshal_member_detections, json.ofString]
  · intro err herr
    subst herr
    rw [scanHandler_encode_error customTags client now₁ now₂ r data v err hm hb hc]

/-- C1, witness: the verdict `malware:eicar` for `doc.pdf`, encoded. -/
theorem scan_verdict_mapping_witness :
    (sampleRequest (str "POST") (str "doc.pdf")).Method = str "POST" ∧
    (sampleRequest (str "POST") (str "doc.pdf")).Body = .ok [104, 101, 108, 108, 111] ∧
    constClient (.ok (str "malware:eicar")) [104, 101, 108, 108, 111]
        (scanIdentifier sampleTime (requestFilename (sampleRequest (str "POST")
          (str "doc.pdf"))))
        (scanTags (some []) sampleTimeLater (requestFilename (sampleRequest (str "POST")
          (str "doc.pdf")))) = .ok (str "malware:eicar") ∧
    (scanHandler (some []) (constClient (.ok (str "malware:eicar"))) sampleTime
        sampleTimeLater none (sampleRequest (str "POST") (str "doc.pdf"))).1.jsonMember
          "detections" = some (.str (str "malware:eicar")) :=
  ⟨rfl, rfl, rfl, by
    obtain ⟨_, _, _, _, _, h, _⟩ :=
      scan_verdict_mapping (some []) (constClient (.ok (str "malware:eicar")))
        sampleTime sampleTimeLater none (sampleRequest (str "POST") (str "doc.pdf"))
        [104, 101, 108, 108, 111] (str "malware:eicar") rfl rfl rfl
    rw [(h rfl).2.2.2.2.1]; decide⟩

/-- C1, counterexample: for the empty verdict the 200 response carries `message` but no
`detections` member; for the verdict of the single byte `0xFF` the 200 response carries
U+FFFD as `message` and `detections`, not the verdict; and when the encoding fails the
response is a 500 without either member. -/
theorem scan_verdict_not_echoed :
    ((scanHandler (some []) (constClient (.ok [])) sampleTime sampleTimeLater none
        (sampleRequest (str "POST") (str "doc.pdf"))).1.status = 200 ∧
      (scanHandler (some []) (constClient (.ok [])) sampleTime sampleTimeLater none
        (sampleRequest (str "POST") (str "doc.pdf"))).1.jsonMember "message" =
          some (.str []) ∧
      (scanHandler (some []) (constClient (.ok [])) sampleTime sampleTimeLater none
        (sampleRequest (str "POST") (str "doc.pdf"))).1.jsonMember "detections" = none) ∧
    ((scanHandler (some []) (constClient (.ok [0xFF])) sampleTime sampleTimeLater none
        (sampleRequest (str "POST") (str "doc.pdf"))).1.status = 200 ∧
      (scanHandler (some []) (constClient (.ok [0xFF])) sampleTime sampleTimeLater none
        (sampleRequest (str "POST") (str "doc.pdf"))).1.jsonMember "message" =
          some (.str [0xEF, 0xBF, 0xBD]) ∧
      (scanHandler (some []) (constClient (.ok [0xFF])) sampleTime sampleTimeLater none
        (sampleRequest (str "POST") (str "doc.pdf"))).1.jsonMember "detections" ≠
          some (.str [0xFF])) ∧
    ((scanHandler (some []) (constClient (.ok (str "clean"))) sampleTime sampleTimeLater
        (some (str "broken pipe")) (sampleRequest (str "POST") (str "doc.pdf"))).1.status =
          500 ∧
      (scanHandler (some []) (constClient (.ok (str "clean"))) sampleTime sampleTimeLater
        (some (str "broken pipe")) (sampleRequest (str "POST")
          (str "doc.pdf"))).1.jsonMember "message" = none) := by
  decide

/-- C3.  The tag sequence of a scan is `bytevault`, `upload`, the extension of the
filename and the ISO date, followed by the custom tags in their order: four more
elements than the custom tags, the same multiset as the four fixed tags plus the custom
tags, every tag occurring as often as in both together; a custom tag `upload` makes
`upload` occur twice. -/
theorem scan_tags_sequence (customTags : Slice) (now : Time) (F : GoString) :
    scanTags customTags now F =
      some ([str "bytevault", str "upload", filepath.Ext F, now.formatDate] ++
        customTags.elems) ∧
    (scanTags customTags now F).elems.length = 4 + customTags.elems.length ∧
    (Multiset.ofList (scanTags customTags now F).elems =
      Multiset.ofList [str "bytevault", str "upload", filepath.Ext F, now.formatDate] +
        Multiset.ofList customTags.elems) ∧
    (∀ t : GoString, (scanTags customTags now F).elems.count t =
      [str "bytevault", str "upload", filepath.Ext F, now.formatDate].count t +
        customTags.elems.count t) ∧
    (scanTags (some [str "a", str "upload"]) sampleTime (str "doc.pdf")).elems =
      [str "bytevault", str "upload", str ".pdf", str "2026-11-04",
       str "a", str "upload"] := by
  refine ⟨rfl, ?_, ?_, ?_, by decide⟩
  · rw [scanTags_elems]; simp; omega
  · rw [scanTags_elems]; rfl
  · intro t; rw [scanTags_elems, List.count_append]

/-- C4.  A request to `/scan` whose method is not `POST` is answered 405 `Method not
allowed` with no event at all: the body is not read and the scanning client is not
called.  Conversely a call of the scanning client occurs only for a `POST` whose body
was read, and with that body. -/
theorem scan_method_gate (customTags : Slice) (client : ScanBuffer) (now₁ now₂ : Time)
    (encodeErr : Option GoString) (r : Request) :
    (r.Method ≠ str "POST" →
      (scanHandler customTags client now₁ now₂ encodeErr r).1 =
        http.Error (str "Method not allowed") 405 ∧
      (scanHandler customTags client now₁ now₂ encodeErr r).1.status = 405 ∧
      (scanHandler customTags client now₁ now₂ encodeErr r).2 = [] ∧
      Event.readBody ∉ (scanHandler customTags client now₁ now₂ encodeErr r).2 ∧
      ∀ d i t,
        Event.scanBuffer d i t ∉ (scanHandler customTags client now₁ now₂ encodeErr r).2) ∧
    (∀ d i t,
      Event.scanBuffer d i t ∈ (scanHandler customTags client now₁ now₂ encodeErr r).2 →
      r.Method = str "POST" ∧ r.Body = .ok d ∧
      Event.readBody ∈ (scanHandler customTags client now₁ now₂ encodeErr r).2) := by
  constructor
  · intro hm
    rw [scanHandler_not_post customTags client now₁ now₂ encodeErr r hm]
    simp [http.Error]
  · intro d i t hmem
    by_cases hm : r.Method = str "POST"
    · cases hb : r.Body with
      | error err =>
        rw [scanHandler_read_error customTags client now₁ now₂ encodeErr r err hm hb]
          at hmem
        simp at hmem
      | ok data =>
        cases hc : client data (scanIdentifier now₁ (requestFilename r))
            (scanTags customTags now₂ (requestFilename r)) with
        | error err =>
          rw [scanHandler_scan_error customTags client now₁ now₂ encodeErr r data err
            hm hb hc] at hmem ⊢
          simp at hmem
          exact ⟨hm, by rw [hmem.1], by simp⟩
        | ok v =>
          cases encodeErr with
          | none =>
            rw [scanHandler_verdict customTags client now₁ now₂ r data v hm hb hc]
              at hmem ⊢
            simp at hmem
            exact ⟨hm, by rw [hmem.1], by simp⟩
          | some err =>
            rw [scanHandler_encode_error customTags client now₁ now₂ r data v err
              hm hb hc] at hmem ⊢
            simp at hmem
            exact ⟨hm, by rw [hmem.1], by simp⟩
    · rw [scanHandler_not_post customTags client now₁ now₂ encodeErr r hm] at hmem
      simp at hmem

/-- C4, witness: a `GET` with a readable body and a client that would answer. -/
theorem scan_method_gate_witness :
    (sampleRequest (str "GET") (str "doc.pdf")).Method ≠ str "POST" ∧
    (scanHandler (some []) (constClient (.ok (str "clean"))) sampleTime sampleTimeLater
      none (sampleRequest (str "GET") (str "doc.pdf"))).1.status = 405 ∧
    (scanHandler (some []) (constClient (.ok (str "clean"))) sampleTime sampleTimeLater
      none (sampleRequest (str "GET") (str "doc.pdf"))).2 = [] :=
  ⟨by decide,
   ((scan_method_gate (some []) (constClient (.ok (str "clean"))) sampleTime
      sampleTimeLater none (sampleRequest (str "GET") (str "doc.pdf"))).1
        (by decide)).2.1,
   ((scan_method_gate (some []) (constClient (.ok (str "clean"))) sampleTime
      sampleTimeLater none (sampleRequest (str "GET") (str "doc.pdf"))).1
        (by decide)).2.2.1⟩

/-- C5.  On a POST whose body was read and whose scan fails, the handler answers 500
with the fixed text `Scanning failed` and no JSON document.  Two scanning clients failing
with any two errors get the same response: it does not depend on the error text. -/
theorem scan_failure_is_generic (customTags : Slice) (client₁ client₂ : ScanBuffer)
    (now₁ now₂ : Time) (encodeErr : Option GoString) (r : Request) (data : Bytes)
    (err₁ err₂ : GoString)
    (hm : r.Method = str "POST") (hb : r.Body = .ok data)
    (h₁ : client₁ data (scanIdentifier now₁ (requestFilename r))
      (scanTags customTags now₂ (requestFilename r)) = .error err₁)
    (h₂ : client₂ data (scanIdentifier now₁ (requestFilename r))
      (scanTags customTags now₂ (requestFilename r)) = .error err₂) :
    (scanHandler customTags client₁ now₁ now₂ encodeErr r).1 =
      (scanHandler customTags client₂ now₁ now₂ encodeErr r).1 ∧
    (scanHandler customTags client₁ now₁ now₂ encodeErr r).1.status = 500 ∧
    (scanHandler customTags client₁ now₁ now₂ encodeErr r).1.body =
      .text (str "Scanning failed") ∧
    (∀ doc, (scanHandler customTags client₁ now₁ now₂ encodeErr r).1.body ≠ .json doc) := by
  rw [scanHandler_scan_error customTags client₁ now₁ now₂ encodeErr r data err₁ hm hb h₁,
    scanHandler_scan_error customTags client₂ now₁ now₂ encodeErr r data err₂ hm hb h₂]
  simp [http.Error]

/-- C5, witness: the errors `quota exceeded` and `connection refused`. -/
theorem scan_failure_is_generic_witness :
    (sampleRequest (str "POST") (str "doc.pdf")).Method = str "POST" ∧
    (scanHandler (some []) (constClient (.error (str "quota exceeded"))) sampleTime
        sampleTimeLater none (sampleRequest (str "POST") (str "doc.pdf"))).1 =
      (scanHandler (some []) (constClient (.error (str "connection refused"))) sampleTime
        sampleTimeLater none (sampleRequest (str "POST") (str "doc.pdf"))).1 ∧
    (scanHandler (some []) (constClient (.error (str "quota exceeded"))) sampleTime
        sampleTimeLater none (sampleRequest (str "POST") (str "doc.pdf"))).1.body =
      .text (str "Scanning failed") :=
  ⟨rfl,
   (scan_failure_is_generic (some []) (constClient (.error (str "quota exceeded")))
      (constClient (.error (str "connection refused"))) sampleTime sampleTimeLater none
      (sampleRequest (str "POST") (str "doc.pdf")) [104, 101, 108, 108, 111]
      (str "quota exceeded") (str "connection refused") rfl rfl rfl rfl).1,
   (scan_failure_is_generic (some []) (constClient (.error (str "quota exceeded")))
      (constClient (.error (str "connection refused"))) sampleTime sampleTimeLater none
      (sampleRequest (str "POST") (str "doc.pdf")) [104, 101, 108, 108, 111]
      (str "quota exceeded") (str "connection refused") rfl rfl rfl rfl).2.2.1⟩

/-- C10 (amended).  On a POST whose body was read and whose scan returned a verdict,
the events of the handler hold exactly one call of the scanning client, with the body
read, the identifier computed and the tags computed, and the `ScanResponse` handed to
the JSON encoder carries that identifier and those tags.  When the encoding succeeds
the response is 200 and its `scanId` and `tags` members, both always present, hold the
text of the identifier and of each tag: they are the identifier and the tags submitted
exactly when these are valid UTF-8, a byte that is not being written as U+FFFD.  When
the encoding fails the response is 500 `Error encoding response`. -/
theorem scan_success_echoes_submission (customTags : Slice) (client : ScanBuffer)
    (now₁ now₂ : Time) (encodeErr : Option GoString) (r : Request) (data : Bytes)
    (v : GoString) (hm : r.Method = str "POST") (hb : r.Body = .ok data)
    (hc : client data (scanIdentifier now₁ (requestFilename r))
      (scanTags customTags now₂ (requestFilename r)) = .ok v) :
    (scanHandler customTags client now₁ now₂ encodeErr r).2.filter Event.isScanBuffer =
      [.scanBuffer data (scanIdentifier now₁ (requestFilename r))
        (scanTags customTags now₂ (requestFilename r))] ∧
    (scanHandler customTags client now₁ now₂ encodeErr r).2.countP Event.isScanBuffer = 1 ∧
    (∃ resp : ScanResponse,
      (scanHandler customTags client now₁ now₂ encodeErr r).2.filter Event.isEncode =
        [.encode resp] ∧
      resp.ScanID = scanIdentifier now₁ (requestFilename r) ∧
      resp.Tags = scanTags customTags now₂ (requestFilename r)) ∧
    scanTags customTags now₂ (requestFilename r) =
      some (scanTags customTags now₂ (requestFilename r)).elems ∧
    (encodeErr = none →
      (scanHandler customTags client now₁ now₂ encodeErr r).1.status = 200 ∧
      (scanHandler customTags client now₁ now₂ encodeErr r).1.jsonMember "scanId" =
        some (.str (json.text (scanIdentifier now₁ (requestFilename r)))) ∧
      (scanHandler customTags client now₁ now₂ encodeErr r).1.jsonMember "tags" =
        some (.strs ((scanTags customTags now₂ (requestFilename r)).elems.map
          json.text)) ∧
      ((scanHandler customTags client now₁ now₂ encodeErr r).1.jsonMember "scanId" =
          some (.str (scanIdentifier now₁ (requestFilename r))) ↔
        utf8.ValidString (scanIdentifier now₁ (requestFilename r)) = true) ∧
      ((scanHandler customTags client now₁ now₂ encodeErr r).1.jsonMember "tags" =
          some (.strs (scanTags customTags now₂ (requestFilename r)).elems) ↔
        ∀ t ∈ (scanTags customTags now₂ (requestFilename r)).elems,
          utf8.ValidString t = true)) ∧
    (∀ err, encodeErr = some err →
      (scanHandler customTags client now₁ now₂ encodeErr r).1 =
        http.Error (str "Error encoding response") 500) := by
  have hscanId : ∀ resp : ScanResponse,
      resp.ScanID = scanIdentifier now₁ (requestFilename r) →
      resp.marshal.member "scanId" =
        some (.str (json.text (scanIdentifier now₁ (requestFilename r)))) := by
    intro resp h
    rw [marshal_member_scanId, h, if_neg (scanIdentifier_ne_nil _ _)]
    rfl
  have htags : ∀ resp : ScanResponse,
      resp.Tags = scanTags customTags now₂ (requestFilename r) →
      resp.marshal.member "tags" =
        some (.strs ((scanTags customTags now₂ (requestFilename r)).elems.map
          json.text)) := by
    intro resp h
    rw [marshal_member_tags, h, if_neg (by rw [scanTags_elems]; simp)]
    rfl
  refine ⟨?_, ?_, ?_, rfl, ?_, ?_⟩
  · cases encodeErr with
    | none =>
      rw [scanHandler_verdict customTags client now₁ now₂ r data v hm hb hc]
      simp [List.filter, Event.isScanBuffer]
    | some err =>
      rw [scanHandler_encode_error customTags client now₁ now₂ r data v err hm hb hc]
      simp [List.filter, Event.isScanBuffer]
  · cases encodeErr with
    | none =>
      rw [scanHandler_verdict customTags client now₁ now₂ r data v hm hb hc]
      simp [List.countP_cons, Event.isScanBuffer]
    | some err =>
      rw [scanHandler_encode_error customTags client now₁ now₂ r data v err hm hb hc]
      simp [List.countP_cons, Event.isScanBuffer]
  · refine ⟨{ IsSafe := v == str "clean", Message := v,
              ScanID := scanIdentifier now₁ (requestFilename r),
              Tags := scanTags customTags now₂ (requestFilename r),
              Detections := v }, ?_, rfl, rfl⟩
    cases encodeErr with
    | none =>
      rw [scanHandler_verdict customTags client now₁ now₂ r data v hm hb hc]
      simp [List.filter, Event.isEncode]
    | some err =>
      rw [scanHandler_encode_error customTags client now₁ now₂ r data v err hm hb hc]
      simp [List.filter, Event.isEncode]
  · intro hnone
    subst hnone
    have hid : (scanHandler customTags client now₁ now₂ none r).1.jsonMember "scanId" =
        some (.str (json.text (scanIdentifier now₁ (requestFilename r)))) := by
      rw [scanHandler_verdict customTags client now₁ now₂ r data v hm hb hc]
      exact hscanId _ rfl
    have htg : (scanHandler customTags client now₁ now₂ none r).1.jsonMember "tags" =
        some (.strs ((scanTags customTags now₂ (requestFilename r)).elems.map
          json.text)) := by
      rw [scanHandler_verdict customTags client now₁ now₂ r data v hm hb hc]
      exact htags _ rfl
    refine ⟨?_, hid, htg, ?_, ?_⟩
    · rw [scanHandler_verdict customTags client now₁ now₂ r data v hm hb hc]
    · rw [hid, ← text_eq_iff_valid]
      constructor
      · intro h
        simpa using h
      · intro h
        rw [h]
    · rw [htg, ← map_text_eq_iff_valid]
      constructor
      · intro h
        simpa using h
      · intro h
        rw [h]
  · intro err herr
    subst herr
    rw [scanHandler_encode_error customTags client now₁ now₂ r data v err hm hb hc]

/-- C10, witness: `doc.pdf` with the verdict `clean` and the custom tags `a`, `b`. -/
theorem scan_success_echoes_submission_witness :
    (sampleRequest (str "POST") (str "doc.pdf")).Method = str "POST" ∧
    (sampleRequest (str "POST") (str "doc.pdf")).Body = .ok [104, 101, 108, 108, 111] ∧
    constClient (.ok (str "clean")) [104, 101, 108, 108, 111]
        (scanIdentifier sampleTime (requestFilename (sampleRequest (str "POST")
          (str "doc.pdf"))))
        (scanTags (getCustomTags sampleEnv) sampleTimeLater (requestFilename
          (sampleRequest (str "POST") (str "doc.pdf")))) = .ok (str "clean") ∧
    (scanHandler (getCustomTags sampleEnv) (constClient (.ok (str "clean"))) sampleTime
        sampleTimeLater none (sampleRequest (str "POST") (str "doc.pdf"))).2.filter
          Event.isScanBuffer =
      [.scanBuffer [104, 101, 108, 108, 111] (str "20261104090500-doc.pdf")
        (some [str "bytevault", str "upload", str ".pdf", str "2026-11-05",
          str "a", str "b"])] ∧
    (scanHandler (getCustomTags sampleEnv) (constClient (.ok (str "clean"))) sampleTime
        sampleTimeLater none (sampleRequest (str "POST") (str "doc.pdf"))).1.jsonMember
          "scanId" = some (.str (str "20261104090500-doc.pdf")) :=
  ⟨rfl, rfl, rfl,
   (scan_success_echoes_submission (getCustomTags sampleEnv)
      (constClient (.ok (str "clean"))) sampleTime sampleTimeLater none
      (sampleRequest (str "POST") (str "doc.pdf")) [104, 101, 108, 108, 111] (str "clean")
      rfl rfl rfl).1,
   ((scan_success_echoes_submission (getCustomTags sampleEnv)
      (constClient (.ok (str "clean"))) sampleTime sampleTimeLater none
      (sampleRequest (str "POST") (str "doc.pdf")) [104, 101, 108, 108, 111] (str "clean")
      rfl rfl rfl).2.2.2.2.1 rfl).2.2.2.1.2 (by decide)⟩

/-- C10, counterexample: for the filename of the byte `0xFF` followed by `.pdf` the
scanning client receives the identifier with the byte `0xFF`, while the `scanId` of the
200 response has U+FFFD in its place; and when the encoding fails there is no 200
response and no `scanId`. -/
theorem scan_id_differs_from_submission :
    ((scanHandler (some []) (constClient (.ok (str "clean"))) sampleTime sampleTimeLater
        none (sampleRequest (str "POST") (0xFF :: str ".pdf"))).2.filter
          Event.isScanBuffer =
      [.scanBuffer [104, 101, 108, 108, 111]
        (str "20261104090500-" ++ 0xFF :: str ".pdf")
        (some [str "bytevault", str "upload", str ".pdf", str "2026-11-05"])] ∧
     (scanHandler (some []) (constClient (.ok (str "clean"))) sampleTime sampleTimeLater
        none (sampleRequest (str "POST") (0xFF :: str ".pdf"))).1.status = 200 ∧
     (scanHandler (some []) (constClient (.ok (str "clean"))) sampleTime sampleTimeLater
        none (sampleRequest (str "POST") (0xFF :: str ".pdf"))).1.jsonMember "scanId" =
      some (.str (str "20261104090500-" ++ [0xEF, 0xBF, 0xBD] ++ str ".pdf")) ∧
     (scanHandler (some []) (constClient (.ok (str "clean"))) sampleTime sampleTimeLater
        none (sampleRequest (str "POST") (0xFF :: str ".pdf"))).1.jsonMember "scanId" ≠
      some (.str (str "20261104090500-" ++ 0xFF :: str ".pdf"))) ∧
    ((scanHandler (some []) (constClient (.ok (str "clean"))) sampleTime sampleTimeLater
        (some (str "broken pipe")) (sampleRequest (str "POST") (str "doc.pdf"))).1.status =
          500 ∧
     (scanHandler (some []) (constClient (.ok (str "clean"))) sampleTime sampleTimeLater
        (some (str "broken pipe")) (sampleRequest (str "POST")
          (str "doc.pdf"))).1.jsonMember "scanId" = none) := by
  decide

/-! ## The `/health` handler and start-up -/

/-- The value of a variable that is unset or set to the empty string reads as empty. -/
theorem getenv_eq_nil_iff (env : Env) (key : GoString) :
    os.Getenv env key = [] ↔ env key = none ∨ env key = some [] := by
  unfold os.Getenv
  cases env key <;> simp

/-- The custom tags are never the nil slice. -/
theorem getCustomTags_toJson (env : Env) :
    (getCustomTags env).toJson = .strs ((getCustomTags env).elems.map json.text) := by
  unfold getCustomTags
  simp only
  split_ifs <;> rfl

/-- C7 (amended).  Whatever the request and whatever calls were served before, the
`/health` handler answers 200 with a document whose `status` is `healthy`, whose
`customTags` hold the text of the configured custom tags and whose `apiEndpoint` holds
the text of the configured region, `us-1` when `FSS_REGION` is unset or empty; it
performs no event.  These members are the configured tags, respectively the configured
region, exactly when those are valid UTF-8, a byte that is not being written as U+FFFD.
Two health calls under one configuration have the same status and agree on every member
other than `timestamp`. -/
theorem health_reports_configuration (env : Env) (now now₂ : Time) (r r₂ : Request)
    (earlier : List Call) :
    (serve (loadConfig env) (.health now r)).1.status = 200 ∧
    (serve (loadConfig env) (.health now r)).1.jsonMember "status" =
      some (.str (str "healthy")) ∧
    (serve (loadConfig env) (.health now r)).1.jsonMember "customTags" =
      some (.strs ((getCustomTags env).elems.map json.text)) ∧
    (serve (loadConfig env) (.health now r)).1.jsonMember "apiEndpoint" =
      some (.str (json.text (loadConfig env).region)) ∧
    ((serve (loadConfig env) (.health now r)).1.jsonMember "customTags" =
        some (.strs (getCustomTags env).elems) ↔
      ∀ t ∈ (getCustomTags env).elems, utf8.ValidString t = true) ∧
    ((serve (loadConfig env) (.health now r)).1.jsonMember "apiEndpoint" =
        some (.str (loadConfig env).region) ↔
      utf8.ValidString (loadConfig env).region = true) ∧
    (loadConfig env).region =
      (if env (str "FSS_REGION") = none ∨ env (str "FSS_REGION") = some []
        then str "us-1" else os.Getenv env (str "FSS_REGION")) ∧
    (loadConfig env).customTags = getCustomTags env ∧
    (serve (loadConfig env) (.health now r)).2 = [] ∧
    (serveAll (loadConfig env) (earlier ++ [.health now r])).getLast? =
      some (serve (loadConfig env) (.health now r)) ∧
    (serve (loadConfig env) (.health now r)).1.status =
      (serve (loadConfig env) (.health now₂ r₂)).1.status ∧
    (∀ key : String, key ≠ "timestamp" →
      (serve (loadConfig env) (.health now r)).1.jsonMember key =
        (serve (loadConfig env) (.health now₂ r₂)).1.jsonMember key) := by
  have htags : (serve (loadConfig env) (.health now r)).1.jsonMember "customTags" =
      some (.strs ((getCustomTags env).elems.map json.text)) := by
    simp [serve, healthHandler, Response.jsonMember, HealthResponse.marshal,
      JsonObject.member, healthResponse, loadConfig, getCustomTags_toJson]
  have hregion : (serve (loadConfig env) (.health now r)).1.jsonMember "apiEndpoint" =
      some (.str (json.text (loadConfig env).region)) := by
    simp [serve, healthHandler, Response.jsonMember, HealthResponse.marshal,
      JsonObject.member, healthResponse, json.ofString]
  refine ⟨rfl, ?_, htags, hregion, ?_, ?_, ?_, rfl, rfl, ?_, rfl, ?_⟩
  · have hlit : json.ofString (str "healthy") = .str (str "healthy") := by decide
    simp [serve, healthHandler, Response.jsonMember, HealthResponse.marshal,
      JsonObject.member, healthResponse, hlit]
  · rw [htags, ← map_text_eq_iff_valid]
    constructor
    · intro h
      simpa using h
    · intro h
      rw [h]
  · rw [hregion, ← text_eq_iff_valid]
    constructor
    · intro h
      simpa using h
    · intro h
      rw [h]
  · simp only [loadConfig, getEnv, ← getenv_eq_nil_iff]
  · simp [serveAll]
  · intro key hkey
    have hk : ("timestamp" == key) = false := by
      simpa [beq_eq_false_iff_ne] using fun h => hkey h.symm
    simp [serve, healthHandler, Response.jsonMember, HealthResponse.marshal,
      JsonObject.member, healthResponse, List.find?, hk]

/-- C7, witness: two health calls in the sample environment, at different times and
with different requests, after a scan. -/
theorem health_reports_configuration_witness :
    ("apiEndpoint" ≠ "timestamp") ∧
    (serve (loadConfig sampleEnv)
        (.health sampleTime (sampleRequest (str "GET") (str "x")))).1.jsonMember
          "apiEndpoint" =
      (serve (loadConfig sampleEnv)
        (.health sampleTimeLater (sampleRequest (str "DELETE") (str "y")))).1.jsonMember
          "apiEndpoint" ∧
    (serve (loadConfig sampleEnv)
        (.health sampleTime (sampleRequest (str "GET") (str "x")))).1.jsonMember
          "customTags" = some (.strs [str "a", str "b"]) ∧
    (serve (loadConfig emptyEnv)
        (.health sampleTime (sampleRequest (str "GET") (str "x")))).1.jsonMember
          "apiEndpoint" = some (.str (str "us-1")) :=
  ⟨by decide,
    (health_reports_configuration sampleEnv sampleTime sampleTimeLater
      (sampleRequest (str "GET") (str "x")) (sampleRequest (str "DELETE") (str "y"))
      [.scan (constClient (.ok (str "clean"))) sampleTime sampleTime none
        (sampleRequest (str "POST") (str "doc.pdf"))]).2.2.2.2.2.2.2.2.2.2.2
          "apiEndpoint" (by decide),
    by decide, by decide⟩

/-- C7, counterexample: with `FSS_CUSTOM_TAGS` set to the single byte `0xFF` the
configured custom tag is that byte, but the `customTags` member of the health document
holds U+FFFD; likewise for `FSS_REGION` and `apiEndpoint`. -/
theorem health_tags_not_echoed :
    getCustomTags (tagsEnv [0xFF]) = some [[0xFF]] ∧
    (serve (loadConfig (tagsEnv [0xFF]))
        (.health sampleTime (sampleRequest (str "GET") (str "x")))).1.jsonMember
          "customTags" = some (.strs [[0xEF, 0xBF, 0xBD]]) ∧
    (serve (loadConfig (tagsEnv [0xFF]))
        (.health sampleTime (sampleRequest (str "GET") (str "x")))).1.jsonMember
          "customTags" ≠ some (.strs [[0xFF]]) ∧
    (loadConfig (fun key => if key = str "FSS_REGION" then some [0xFF] else none)).region =
      [0xFF] ∧
    (serve (loadConfig (fun key => if key = str "FSS_REGION" then some [0xFF] else none))
        (.health sampleTime (sampleRequest (str "GET") (str "x")))).1.jsonMember
          "apiEndpoint" ≠ some (.str [0xFF]) := by
  decide

/-- C8.  With `FSS_API_KEY` unset or empty, `main` performs the fatal configuration
error and nothing else: no client is created, no handler registered, no listener
started.  Whenever the listener is started, it is on `:3001`, the key is not empty, and
the client was created with that key before. -/
theorem missing_api_key_is_fatal (env : Env) (openFile newClient : Option GoString) :
    (env (str "FSS_API_KEY") = none ∨ env (str "FSS_API_KEY") = some [] →
      main env openFile newClient =
        [.fatal "FSS_API_KEY environment variable must be set" []] ∧
      (∀ key region, MainEvent.newClient key region ∉ main env openFile newClient) ∧
      (∀ pattern, MainEvent.handleFunc pattern ∉ main env openFile newClient) ∧
      (∀ addr, MainEvent.listenAndServe addr ∉ main env openFile newClient)) ∧
    (∀ addr, MainEvent.listenAndServe addr ∈ main env openFile newClient →
      addr = ":3001" ∧ os.Getenv env (str "FSS_API_KEY") ≠ [] ∧
      ∃ before after, main env openFile newClient =
        before ++ MainEvent.newClient (os.Getenv env (str "FSS_API_KEY"))
          (getEnv env (str "FSS_REGION") (str "us-1")) :: after ++
          [MainEvent.listenAndServe ":3001"]) := by
  constructor
  · intro h
    have hk : os.Getenv env (str "FSS_API_KEY") = [] := (getenv_eq_nil_iff _ _).2 h
    have hmain : main env openFile newClient =
        [.fatal "FSS_API_KEY environment variable must be set" []] := by
      unfold main
      simp only [hk, if_pos]
    rw [hmain]
    simp
  · intro addr hmem
    by_cases hk : os.Getenv env (str "FSS_API_KEY") = []
    · have hmain : main env openFile newClient =
          [.fatal "FSS_API_KEY environment variable must be set" []] := by
        unfold main
        simp only [hk, if_pos]
      rw [hmain] at hmem
      simp at hmem
    · cases openFile with
      | some err =>
        have hmain : main env (some err) newClient =
            [.openLogFile, .fatal "Error opening log file: %v" [err]] := by
          unfold main
          simp only [hk, if_false]
        rw [hmain] at hmem
        simp at hmem
      | none =>
        cases newClient with
        | some err =>
          unfold main at hmem
          simp only [hk, if_false] at hmem
          simp at hmem
        | none =>
          unfold main at hmem ⊢
          simp only [hk, if_false] at hmem ⊢
          simp at hmem
          refine ⟨hmem, hk, [.openLogFile, .setLogOutput,
            .log "Scanner Service Starting" [], .log "Configuration:" [],
            .log "- Region: %s" [.str (getEnv env (str "FSS_REGION") (str "us-1"))],
            .log "- Custom Tags: %v" [.strs (getCustomTags env)]],
            [.setDigestDisable, .handleFunc "/scan", .handleFunc "/health",
             .log "Scanner service starting on :3001" []], ?_⟩
          simp

/-- C8, witness: in the empty environment `main` stops at the fatal error; in the
sample environment it reaches the listener. -/
theorem missing_api_key_is_fatal_witness :
    (emptyEnv (str "FSS_API_KEY") = none ∨ emptyEnv (str "FSS_API_KEY") = some []) ∧
    main emptyEnv none none =
      [.fatal "FSS_API_KEY environment variable must be set" []] ∧
    MainEvent.listenAndServe ":3001" ∈ main sampleEnv none none :=
  ⟨Or.inl rfl, ((missing_api_key_is_fatal emptyEnv none none).1 (Or.inl rfl)).1,
    by decide⟩

/-! ## Identifier, extension tag, custom tags -/

/-- The filename of a request is the header value, or `unknown` when the header is
absent or empty; it is never empty. -/
theorem requestFilename_spec (r : Request) :
    requestFilename r ≠ [] ∧
    (r.headerGet (str "X-Filename") = [] → requestFilename r = (str "unknown")) ∧
    (r.headerGet (str "X-Filename") ≠ [] →
      requestFilename r = r.headerGet (str "X-Filename")) := by
  have e : requestFilename r =
      if r.headerGet (str "X-Filename") = [] then (str "unknown")
      else r.headerGet (str "X-Filename") := rfl
  rw [e]
  by_cases h : r.headerGet (str "X-Filename") = []
  · rw [if_pos h]
    exact ⟨by decide, fun _ => rfl, fun h2 => absurd h h2⟩
  · rw [if_neg h]
    exact ⟨h, fun h2 => absurd h2 h, fun _ => rfl⟩

/-- C2 (amended).  For a time with a four-digit year, the identifier of a scan is the
fourteen decimal digits of the time, then `-`, then `filepath.Base` of the filename.
That base name is a non-empty piece of the filename without path separator, followed
in the filename by separators only and preceded by nothing or a part ending in a
separator; except for a filename of separators only, whose base name is `/`. -/
theorem scan_identifier_shape (T : Time) (r : Request) (hT : T.wellFormed)
    (hy0 : 0 ≤ T.year) (hy : T.year ≤ 9999) :
    scanIdentifier T (requestFilename r) =
      T.formatCompact ++ '-'.toUInt8 :: filepath.Base (requestFilename r) ∧
    T.formatCompact.length = 14 ∧
    (∀ c ∈ T.formatCompact, isDigit c = true) ∧
    (((∀ c ∈ requestFilename r, c = '/'.toUInt8) ∧
        filepath.Base (requestFilename r) = ['/'.toUInt8]) ∨
     (filepath.Base (requestFilename r) ≠ [] ∧
      '/'.toUInt8 ∉ filepath.Base (requestFilename r) ∧
      ∃ pre post, requestFilename r = pre ++ filepath.Base (requestFilename r) ++ post ∧
        (∀ c ∈ post, c = '/'.toUInt8) ∧
        (pre = [] ∨ pre.getLast? = some '/'.toUInt8))) := by
  refine ⟨by
      unfold scanIdentifier
      rw [show str "-" = ['-'.toUInt8] by decide]
      simp, (formatCompact_digits T hT hy0 hy).1,
    (formatCompact_digits T hT hy0 hy).2, base_spec _ (requestFilename_spec r).1⟩

/-- C2, witness: the upload `dir/sub/doc.pdf` at the sample time. -/
theorem scan_identifier_shape_witness :
    sampleTime.wellFormed ∧ 0 ≤ sampleTime.year ∧ sampleTime.year ≤ 9999 ∧
    scanIdentifier sampleTime (requestFilename (sampleRequest (str "POST") (str "dir/sub/doc.pdf"))) =
      (str "20261104090500-doc.pdf") ∧
    sampleTime.formatCompact.length = 14 :=
  ⟨by decide, by decide, by decide, by decide,
    (scan_identifier_shape sampleTime (sampleRequest (str "POST") (str "dir/sub/doc.pdf"))
      (by decide) (by decide) (by decide)).2.1⟩

/-- C2, counterexample: for the filename `/` the part of the identifier after the
first `-` is `/`, a path separator; and in the year 10000 the identifier starts with
fifteen digits. -/
theorem scan_identifier_keeps_separator :
    scanIdentifier sampleTime (requestFilename (sampleRequest (str "POST") (str "/"))) =
      (str "20261104090500-/") ∧
    '/'.toUInt8 ∈ filepath.Base (requestFilename (sampleRequest (str "POST") (str "/"))) ∧
    scanIdentifier { sampleTime with year := 10000 }
        (requestFilename (sampleRequest (str "POST") (str "doc.pdf"))) =
      (str "100001104090500-doc.pdf") := by
  decide

/-- The identifier is made of the second and the base name only, so it is not unique,
whatever the source comment `Generate unique identifier` says: two uploads in the same
second whose filenames end in the same element get the same identifier. -/
theorem scanIdentifier_collision :
    scanIdentifier sampleTime (str "a/doc.pdf") =
      scanIdentifier sampleTime (str "b/doc.pdf") := by
  decide

/-- C9.  The third tag of a scan is `filepath.Ext` of the filename.  It is empty, or a
suffix of the filename that begins with `.` and has no further `.` and no path
separator.  It is empty when the filename has no `.`, and more exactly when the last
path element has none (every `.` is followed by a separator); it is the suffix at a `.`
whenever no `.` and no separator follows that `.`.  `doc.pdf` gives `.pdf`, `unknown`
gives the empty string. -/
theorem extension_tag_shape (customTags : Slice) (now : Time) (F : GoString) :
    (scanTags customTags now F).elems[2]? = some (filepath.Ext F) ∧
    (filepath.Ext F = [] ∨
      ∃ rest, filepath.Ext F = '.'.toUInt8 :: rest ∧ filepath.Ext F <:+ F ∧
        '.'.toUInt8 ∉ rest ∧ '/'.toUInt8 ∉ rest) ∧
    ('.'.toUInt8 ∉ F → filepath.Ext F = []) ∧
    (∀ pre rest, F = pre ++ '.'.toUInt8 :: rest → '.'.toUInt8 ∉ rest → '/'.toUInt8 ∉ rest →
      filepath.Ext F = '.'.toUInt8 :: rest) ∧
    (filepath.Ext F = [] ↔ ∀ pre rest, F = pre ++ '.'.toUInt8 :: rest → '/'.toUInt8 ∈ rest) ∧
    filepath.Ext (str "doc.pdf") = (str ".pdf") ∧
    filepath.Ext (str "unknown") = [] := by
  refine ⟨by rw [scanTags_elems]; rfl, ext_shape F, ?_, ?_, ext_eq_nil_iff F,
    by decide, by decide⟩
  · intro hno
    rcases ext_shape F with h | ⟨rest, h1, h2, _, _⟩
    · exact h
    · exfalso
      apply hno
      apply h2.subset
      rw [h1]
      exact List.mem_cons_self _ _
  · intro pre rest hF h1 h2
    rw [hF]
    exact ext_of_last_dot pre rest h1 h2

/-- C9, witness: `archive.tar.gz` in a dotted directory. -/
theorem extension_tag_shape_witness :
    (str "a.b/archive.tar.gz") = (str "a.b/archive.tar") ++ '.'.toUInt8 :: (str "gz") ∧
    '.'.toUInt8 ∉ (str "gz") ∧ '/'.toUInt8 ∉ (str "gz") ∧
    filepath.Ext (str "a.b/archive.tar.gz") = (str ".gz") :=
  ⟨by decide, by decide, by decide,
    (extension_tag_shape none sampleTime (str "a.b/archive.tar.gz")).2.2.2.1
      (str "a.b/archive.tar") (str "gz") (by decide) (by decide) (by decide)⟩

/-- C6.  `getCustomTags` gives the empty, non-nil slice when `FSS_CUSTOM_TAGS` is unset
or empty.  For a non-empty value it gives the non-nil slice `strings.Split` makes of it
at `,`: one element more than the value has commas, no comma in any element, and the
elements joined with `,` are the value again, so nothing is trimmed or dropped. -/
theorem custom_tags_split (env : Env) :
    (env (str "FSS_CUSTOM_TAGS") = none ∨ env (str "FSS_CUSTOM_TAGS") = some [] →
      getCustomTags env = some []) ∧
    (∀ s : GoString, s ≠ [] → env (str "FSS_CUSTOM_TAGS") = some s →
      getCustomTags env = some (strings.Split s ','.toUInt8) ∧
      (strings.Split s ','.toUInt8).length = s.count ','.toUInt8 + 1 ∧
      (∀ e ∈ strings.Split s ','.toUInt8, ','.toUInt8 ∉ e) ∧
      strings.Join (strings.Split s ','.toUInt8) ','.toUInt8 = s) ∧
    getCustomTags (tagsEnv (str "a,b")) = some [(str "a"), (str "b")] := by
  refine ⟨?_, ?_, by decide⟩
  · intro h
    have hk := (getenv_eq_nil_iff env (str "FSS_CUSTOM_TAGS")).2 h
    unfold getCustomTags
    simp only [hk, if_true]
  · intro s hs henv
    have hk : os.Getenv env (str "FSS_CUSTOM_TAGS") = s := by
      unfold os.Getenv; rw [henv]; rfl
    refine ⟨?_, split_spec s ','.toUInt8⟩
    unfold getCustomTags
    simp only [hk, if_neg hs]

/-- C6, witness: the value `,x, ,` keeps its empty and its blank element. -/
theorem custom_tags_split_witness :
    (str ",x, ,") ≠ [] ∧
    tagsEnv (str ",x, ,") (str "FSS_CUSTOM_TAGS") = some (str ",x, ,") ∧
    getCustomTags (tagsEnv (str ",x, ,")) =
      some [(str ""), (str "x"), (str " "), (str "")] ∧
    strings.Join (strings.Split (str ",x, ,") ','.toUInt8) ','.toUInt8 = (str ",x, ,") :=
  ⟨by decide, by decide, by decide,
    ((custom_tags_split (tagsEnv (str ",x, ,"))).2.1 (str ",x, ,") (by decide)
      (by decide)).2.2.2⟩

end Scanner
